import Mathlib

/-!
# crcgen: the output-configuration loader and the bootstrap sequencer

A shallow embedding of `src/writer/writer.go` (package writer), of the
one-time guard of `Start` under concurrent callers, and of `Run` of package
cmd.

* A Go string is modelled as the list of its runes.  The scans made by
  `filepath.Split` and `filepath.Ext` look for the bytes of `/` and `.` only,
  and in UTF-8 these bytes never occur inside a multi-byte rune, so scanning
  runes and scanning bytes find the same positions.
* `error` is `Option GoError`; `nil` is `none`.
* The package-level variables (`once`, `output`) are the fields of `State`,
  threaded explicitly.  The calls a function makes to its collaborators are
  recorded, in order, in the ghost field `trace`.
* Paths follow the Unix build of `path/filepath`: the separator is `/` and
  there are no volume names.
* `cmd.go` is not among the sources; the functions of package cmd are
  modelled from the specification and marked as such.
-/

namespace Crcgen

/-- A Go string, as the sequence of its runes. -/
abbrev GoString := List Char

/-! ## Library functions used by the package -/

namespace os

/-- Unix `os.IsPathSeparator`: `PathSeparator == c` with `PathSeparator = '/'`. -/
def IsPathSeparator (c : Char) : Bool := c == '/'

end os

namespace filepath

/-- The loop of `filepath.Split`:
`i := len(path) - 1; for i >= 0 && !os.IsPathSeparator(path[i]) { i-- }`.
The argument is `i + 1` and so is the result. -/
def Split.loop (path : GoString) : Nat → Nat
  | 0 => 0
  | k + 1 => if os.IsPathSeparator (path.getD k ' ') then k + 1 else Split.loop path k

/-- Go `filepath.Split`: `return path[:i+1], path[i+1:]` after the loop. -/
def Split (path : GoString) : GoString × GoString :=
  let j := Split.loop path path.length
  (path.take j, path.drop j)

/-- The loop of `filepath.Ext`:
`for i := len(path) - 1; i >= 0 && !os.IsPathSeparator(path[i]); i-- {
   if path[i] == '.' { return path[i:] } }; return ""`.
The argument is `i + 1`. -/
def Ext.loop (path : GoString) : Nat → GoString
  | 0 => []
  | k + 1 =>
    if os.IsPathSeparator (path.getD k ' ') then []
    else if path.getD k ' ' == '.' then path.drop k
    else Ext.loop path k

/-- Go `filepath.Ext`. -/
def Ext (path : GoString) : GoString := Ext.loop path path.length

end filepath

namespace strings

/-- Go `strings.TrimLeft`: drop every leading rune that occurs in `cutset`. -/
def TrimLeft (s cutset : GoString) : GoString := s.dropWhile (fun c => cutset.contains c)

/-- Go `strings.ToLower`.  The letters `A`..`Z` are moved to `a`..`z`.  Runes
outside ASCII are left as they are: Go sends them through the Unicode tables,
and no rune outside ASCII is mapped by those tables to a letter of `json`,
`yaml` or `yml`, so every comparison the package makes on a lowered string has
the same outcome. -/
def ToLower (s : GoString) : GoString := s.map Char.toLower

end strings

/-- An error value made outside package writer (by viper, by the operating
system, ...).  The two sentinels of the package are unexported values, so no
such error is one of them or has one of them in its chain. -/
structure ForeignError where
  id : Nat
deriving DecidableEq, Repr

/-- The error values the package handles. -/
inductive GoError where
  /-- The package variable `errInvalidFile`. -/
  | errInvalidFile
  /-- The package variable `errInvalidExt`. -/
  | errInvalidExt
  /-- An error made outside the package. -/
  | foreign (e : ForeignError)
  /-- The `withMessage` value of pkg/errors. -/
  | withMessage (cause : GoError) (msg : GoString)
  /-- The `withStack` value of pkg/errors (the recorded stack is left out). -/
  | withStack (err : GoError)
deriving DecidableEq, Repr

/-- Go's `error` interface: `nil` or an error value. -/
abbrev error := Option GoError

namespace errors

/-- pkg/errors `Wrap`: `nil` for `nil`, else
`withStack{withMessage{cause: err, msg: message}, callers()}`. -/
def Wrap (err : error) (message : GoString) : error :=
  match err with
  | none => none
  | some e => some (.withStack (.withMessage e message))

/-- The loop of `errors.Is`: compare with `==`, then `Unwrap`, until the chain
ends (`withMessage` and `withStack` have an `Unwrap` method, the other values
end the chain).  The targets of this program are sentinels and foreign leaves,
for which Go's `==` is equality of the modelled values. -/
def is : GoError → GoError → Bool
  | .withMessage cause msg, target =>
    if GoError.withMessage cause msg = target then true else is cause target
  | .withStack err, target =>
    if GoError.withStack err = target then true else is err target
  | err, target => decide (err = target)

/-- Go `errors.Is`. -/
def Is (err target : error) : Bool :=
  match err, target with
  | some e, some t => is e t
  | none, none => true
  | _, _ => false

end errors

/-! ## Package writer -/

/-- The part of a `viper.Viper` that the package touches: the registered
config file and the parsed contents. -/
structure Viper where
  configFile : GoString
  config : List (GoString × GoString)
deriving DecidableEq, Repr

namespace viper

/-- Go `viper.New()`. -/
def New : Viper := { configFile := [], config := [] }

/-- Go `(*Viper).SetConfigFile`: `if in != "" { v.configFile = in }`. -/
def SetConfigFile (v : Viper) (file : GoString) : Viper :=
  if file ≠ [] then { v with configFile := file } else v

end viper

/-- What the package does to the outside, in the order it does it. -/
inductive Event where
  /-- Ghost: the body of `start` begins to execute. -/
  | startBody (confFile : GoString)
  /-- A call `logger.Errorf(format, args...)`. -/
  | loggerErrorf (format : GoString) (args : List GoString)
  /-- A call `output.SetConfigFile(path)`. -/
  | setConfigFile (path : GoString)
  /-- A call `readViperConfigs(output)`, with the store as it was passed. -/
  | readViperConfigs (store : Viper)
deriving DecidableEq, Repr

/-- The package-level state: `once`, `output`, and the ghost trace. -/
structure State where
  /-- The `done` flag of `once`. -/
  once : Bool
  /-- The store `output`. -/
  output : Viper
  /-- Ghost: the events so far, oldest first. -/
  trace : List Event
deriving DecidableEq, Repr

/-- The state of a fresh process: `once` unused, `output = viper.New()`. -/
def State.fresh : State := { once := false, output := viper.New, trace := [] }

/-- Append an event to the trace. -/
def State.emit (s : State) (e : Event) : State := { s with trace := s.trace ++ [e] }

/-- The parser collaborator behind the variable `readViperConfigs`
(`(*viper.Viper).ReadInConfig`): it may rewrite the store and returns `nil`
or an error of its own making. -/
structure Collab where
  readViperConfigs : Viper → Viper × Option ForeignError

namespace writer

/-- Go `const pkgName = "writer"`. -/
def pkgName : GoString := "writer".toList

/-- Go `errors.Is(err, errInvalidFile)`. -/
def IsInvalidFileErr (err : error) : Bool := errors.Is err (some .errInvalidFile)

/-- Go `errors.Is(err, errInvalidExt)`. -/
def IsInvalidExtErr (err : error) : Bool := errors.Is err (some .errInvalidExt)

/-- Go `validateExt`: `switch strings.ToLower(ext) { case "json", "yaml", "yml": ... }`. -/
def validateExt (ext : GoString) : Bool :=
  let e := strings.ToLower ext
  if e = "json".toList ∨ e = "yaml".toList ∨ e = "yml".toList then true else false

/-- Go `const logTag = "(" + pkgName + "/Start)"`. -/
def logTag : GoString := "(".toList ++ pkgName ++ "/Start)".toList

/-- Go `start`. -/
def start (env : Collab) (s : State) (confFile : GoString) : State × error :=
  let s := s.emit (.startBody confFile)
  let file := (filepath.Split confFile).2
  let ext := strings.ToLower (strings.TrimLeft (filepath.Ext confFile) ".".toList)
  if file = [] then
    (s.emit (.loggerErrorf "%s: config path is empty".toList [logTag]),
      errors.Wrap (some .errInvalidFile) logTag)
  else if ext = [] then
    (s.emit (.loggerErrorf "%s: config path has no extension: \x22%s\x22".toList
        [logTag, confFile]),
      errors.Wrap (some .errInvalidExt) logTag)
  else if !validateExt ext then
    (s.emit (.loggerErrorf "%s: config file invalid ext detected: \x22%s\x22".toList
        [logTag, confFile]),
      errors.Wrap (some .errInvalidExt) logTag)
  else
    let s := { s.emit (.setConfigFile confFile) with
      output := viper.SetConfigFile s.output confFile }
    let r := env.readViperConfigs s.output
    ({ s.emit (.readViperConfigs s.output) with output := r.1 },
      errors.Wrap (r.2.map GoError.foreign) logTag)

end writer

namespace sync

/-- Go `(*sync.Once).Do` on the package's `once`, for a closure `f` that
reads and writes the package state and the captured locals `a`: `f` runs iff
`done` is still unset, and `done` is set when `f` has returned. -/
def Once.Do {α : Type} (s : State) (a : α) (f : State → α → State × α) : State × α :=
  if s.once then (s, a)
  else
    let r := f s a
    ({ r.1 with once := true }, r.2)

end sync

namespace writer

/-- Go `Start`: `var err error; once.Do(func() { err = start(confPath) }); return err`. -/
def Start (env : Collab) (s : State) (confPath : GoString) : State × error :=
  let err : error := none
  sync.Once.Do s err (fun s _ => start env s confPath)

/-- A sequence of calls to `Start`, one after the other, with what each returned. -/
def StartAll (env : Collab) : State → List GoString → State × List error
  | s, [] => (s, [])
  | s, p :: ps =>
    let r := Start env s p
    let rs := StartAll env r.1 ps
    (rs.1, r.2 :: rs.2)

end writer

/-- Ghost: how many times the body of `start` has begun. -/
def State.bodyRuns (s : State) : Nat :=
  s.trace.countP (fun e => match e with | .startBody _ => true | _ => false)

/-- Ghost: how many times the parser collaborator has been invoked. -/
def State.parserCalls (s : State) : Nat :=
  s.trace.countP (fun e => match e with | .readViperConfigs _ => true | _ => false)

/-- Ghost: the paths for which the body of `start` has begun, oldest first. -/
def State.bodyPaths (s : State) : List GoString :=
  s.trace.filterMap (fun e => match e with | .startBody p => some p | _ => none)

/-- A parser that reads nothing and succeeds. -/
def Collab.ok : Collab := { readViperConfigs := fun v => (v, none) }

/-- A parser that fails with the foreign error `k`. -/
def Collab.failing (k : Nat) : Collab := { readViperConfigs := fun v => (v, some ⟨k⟩) }

/-! ## The words of the specification about paths -/

/-- The text after the last occurrence of `c` in `s`: the longest suffix of
`s` without `c` (all of `s` when `c` does not occur). -/
def textAfterLast (c : Char) (s : GoString) : GoString := s.rtakeWhile (fun x => x != c)

/-- The final filename component of a path: the text after the last path separator. -/
def finalComponent (path : GoString) : GoString := textAfterLast '/' path

/-- The extension of a path: the text after the last `.` of the final
component, lower-cased; empty when the final component has no `.`. -/
def extension (path : GoString) : GoString :=
  if '.' ∈ finalComponent path then
    strings.ToLower (textAfterLast '.' (finalComponent path))
  else []

/-- The accepted extensions. -/
def acceptedExts : List GoString := ["json".toList, "yaml".toList, "yml".toList]

/-! ## Concurrent callers of `Start`

Several goroutines call `Start` at once.  Each of them runs the code of
`(*sync.Once).Do`:

    func (o *Once) Do(f func()) {
        if o.done.Load() == 0 { o.doSlow(f) }
    }
    func (o *Once) doSlow(f func()) {
        o.m.Lock()
        defer o.m.Unlock()
        if o.done.Load() == 0 {
            defer o.done.Store(1)
            f()
        }
    }

A step of the system is one of these statements, run by one caller; the
scheduler picks the caller.  The closure `f` is one step: it runs under the
mutex and is the only code that touches `output` and the collaborators. -/

namespace conc

/-- Where a caller stands in `Start`. -/
inductive Pc where
  /-- About to run `if o.done.Load() == 0` of `Do`. -/
  | entry
  /-- In `doSlow`, about to run `o.m.Lock()`. -/
  | locking
  /-- Holds the mutex, about to run `if o.done.Load() == 0 { ...; f() }`. -/
  | inside
  /-- The closure has returned; about to run the deferred `o.done.Store(1)`. -/
  | storing
  /-- About to run the deferred `o.m.Unlock()`. -/
  | unlocking
  /-- `Start` has returned its `err`. -/
  | returned
deriving DecidableEq, Repr

/-- The callers that hold the mutex are those between `Lock` and `Unlock`. -/
def Pc.holds : Pc → Bool
  | .inside | .storing | .unlocking => true
  | _ => false

/-- The number of steps a caller can still take, at most. -/
def Pc.left : Pc → Nat
  | .entry => 5
  | .locking => 4
  | .inside => 3
  | .storing => 2
  | .unlocking => 1
  | .returned => 0

/-- One call of `Start`: its argument, where it stands, and its local `err`. -/
structure Caller where
  confPath : GoString
  pc : Pc
  err : error
deriving DecidableEq, Repr

/-- The process: the package state, the mutex `once.m`, and the callers. -/
structure Conc where
  st : State
  locked : Bool
  callers : List Caller
deriving DecidableEq, Repr

/-- The process as the callers arrive: fresh state, mutex free, every caller at
the entry of `Start` with `err = nil`. -/
def init (paths : List GoString) : Conc :=
  { st := State.fresh, locked := false,
    callers := paths.map (fun p => { confPath := p, pc := .entry, err := none }) }

/-- The next statement of one caller; `none` when the caller has returned or
waits for the mutex. -/
def stepCaller (env : Collab) (st : State) (locked : Bool) (cl : Caller) :
    Option (State × Bool × Caller) :=
  match cl.pc with
  | .entry =>
    if st.once then some (st, locked, { cl with pc := .returned })
    else some (st, locked, { cl with pc := .locking })
  | .locking =>
    if locked then none else some (st, true, { cl with pc := .inside })
  | .inside =>
    if st.once then some (st, locked, { cl with pc := .unlocking })
    else
      let r := writer.start env st cl.confPath
      some (r.1, locked, { cl with pc := .storing, err := r.2 })
  | .storing => some ({ st with once := true }, locked, { cl with pc := .unlocking })
  | .unlocking => some (st, false, { cl with pc := .returned })
  | .returned => none

/-- A step of the process: caller `i` runs its next statement. -/
def step (env : Collab) (i : Nat) (c : Conc) : Option Conc :=
  match c.callers[i]? with
  | none => none
  | some cl =>
    match stepCaller env c.st c.locked cl with
    | none => none
    | some r => some { st := r.1, locked := r.2.1, callers := c.callers.set i r.2.2 }

/-- A schedule: the callers that step, in order.  `none` when a scheduled
caller cannot step. -/
def run (env : Collab) : List Nat → Conc → Option Conc
  | [], c => some c
  | i :: sched, c =>
    match step env i c with
    | none => none
    | some c1 => run env sched c1

/-- Every caller has returned. -/
def Conc.allReturned (c : Conc) : Bool := c.callers.all (fun cl => cl.pc == .returned)

/-- The steps the callers can still take, at most. -/
def Conc.left (c : Conc) : Nat := (c.callers.map (fun cl => cl.pc.left)).sum

/-- What holds in every state that the callers of `paths` can reach: the
mutex is held by exactly the one caller between `Lock` and `Unlock`, a caller
past the body has seen or set `done`, and the package state is fresh until one
caller has run `start`, once, on the fresh state. -/
structure Inv (env : Collab) (paths : List GoString) (c : Conc) : Prop where
  paths_eq : c.callers.map (fun cl => cl.confPath) = paths
  held : ∀ (i : Nat) (cl : Caller), c.callers[i]? = some cl → cl.pc.holds = true →
    c.locked = true
  excl : ∀ (i j : Nat) (ci cj : Caller), c.callers[i]? = some ci → c.callers[j]? = some cj →
    ci.pc.holds = true → cj.pc.holds = true → i = j
  holder : c.locked = true →
    ∃ (i : Nat) (cl : Caller), c.callers[i]? = some cl ∧ cl.pc.holds = true
  late : ∀ (i : Nat) (cl : Caller), c.callers[i]? = some cl →
    cl.pc = Pc.unlocking ∨ cl.pc = Pc.returned → c.st.once = true
  fresh : c.st.once = false →
    (∀ (i : Nat) (cl : Caller), c.callers[i]? = some cl → cl.pc ≠ Pc.storing) →
    c.st = State.fresh
  ran : (c.st.once = true ∨
      ∃ (i : Nat) (cl : Caller), c.callers[i]? = some cl ∧ cl.pc = Pc.storing) →
    ∃ p ∈ paths, c.st.trace = (writer.start env State.fresh p).1.trace

end conc

/-! ## Package cmd (bootstrap sequencer)

`cmd.go` is not among the sources (only `cmd_test.go` is): the functions of
package cmd are modelled from the specification. -/

namespace cmd

/-- The execution mode of a run. -/
inductive ExecutionMode where
  | Debug
  | Production
deriving DecidableEq, Repr

/-- What a run does to the outside, in the order it does it. -/
inductive Event where
  /-- A call of the logger initializer, with its argument `toFile`. -/
  | initLogger (toFile : Bool)
  /-- A call of the command executor. -/
  | execCmd
  /-- A call of the logger closer. -/
  | closeLogger
  /-- The error of the logger closer is logged and dropped. -/
  | logCloseFailure (e : ForeignError)
deriving DecidableEq, Repr

/-- The collaborators of package cmd that the tests replace through the
variables `initLogger`, `execCmd` and `closeLogger`, each given by what a call
of it returns. -/
structure Collab where
  initLogger : Bool → Option ForeignError
  execCmd : Unit → Option ForeignError
  closeLogger : Unit → Option ForeignError

/-- Modelled from the spec: the mode detection of `Run`, absent from the
sources.  The debug-mode environment variable, if set to any non-empty value,
selects Debug mode; otherwise Production.  `env` is the value of the variable,
`none` when it is unset. -/
def detectMode (env : Option GoString) : ExecutionMode :=
  match env with
  | some (_ :: _) => .Debug
  | _ => .Production

/-- Modelled from the spec: the contextual tag that `Run` puts in front of a
failure of the logger initializer; its text is absent from the sources. -/
def runTag : GoString := "(cmd/Run)".toList

/-- Modelled from the spec: `closeRes`, absent from the sources.  The cleanup
step closes the logger; an error from closing is logged and dropped, never
returned. -/
def closeRes (c : Collab) (t : List Event) : List Event :=
  match c.closeLogger () with
  | none => t ++ [.closeLogger]
  | some e => t ++ [.closeLogger, .logCloseFailure e]

/-- Modelled from the spec: `Run`, absent from the sources.  Determine the
mode; in Debug mode initialize the logger for console output only
(`toFile = false`) and, if that fails, return the failure at once, before the
command is executed and before the cleanup; in Production mode skip the logger;
execute the root command and propagate its failure verbatim; run the cleanup
before returning.  The result is the events of the run and what `Run`
returns. -/
def Run (c : Collab) (env : Option GoString) : List Event × error :=
  let logged : List Event × error :=
    match detectMode env with
    | .Debug => ([.initLogger false], errors.Wrap ((c.initLogger false).map .foreign) runTag)
    | .Production => ([], none)
  match logged.2 with
  | some e => (logged.1, some e)
  | none =>
    let err : error := (c.execCmd ()).map .foreign
    (closeRes c (logged.1 ++ [.execCmd]), err)

/-- Ghost: the arguments of the calls of the logger initializer, oldest first. -/
def initLoggerCalls (t : List Event) : List Bool :=
  t.filterMap (fun e => match e with | .initLogger b => some b | _ => none)

/-- Collaborators that all succeed. -/
def Collab.ok : Collab :=
  { initLogger := fun _ => none, execCmd := fun _ => none, closeLogger := fun _ => none }

/-- Ghost: the number of calls of the command executor. -/
def execCmdCalls (t : List Event) : Nat := t.count .execCmd

/-- Ghost: the number of calls of the logger closer. -/
def closeLoggerCalls (t : List Event) : Nat := t.count .closeLogger

/-- How a call of a Go function ends for its caller: the function returns,
handing its caller an error or nil (nil also when it has no result at all), or
it panics with a value. -/
inductive Ending where
  | returned (err : error)
  | panicked (v : GoError)
deriving DecidableEq, Repr

/-- Modelled from the spec: how a call of `closeRes` ends, absent from the
sources.  The cleanup step consumes errors internally: when the closer returns
nil there is nothing to report, and when it returns an error the error is
logged (the event `logCloseFailure` of `closeRes`) and dropped; in both cases
the step returns to its caller without an error, and it never raises one or
halts the process. -/
def closeRes.ending (c : Collab) : Ending :=
  match c.closeLogger () with
  | none => .returned none
  | some _ => .returned none

/-- Collaborators whose logger initializer fails with the foreign error `k`. -/
def Collab.loggerFailing (k : Nat) : Collab :=
  { initLogger := fun _ => some ⟨k⟩, execCmd := fun _ => none, closeLogger := fun _ => none }

/-- Collaborators whose command executor fails with the foreign error `k`. -/
def Collab.execFailing (k : Nat) : Collab :=
  { initLogger := fun _ => none, execCmd := fun _ => some ⟨k⟩, closeLogger := fun _ => none }

/-- What the root command does to the outside when it is executed. -/
inductive RootEvent where
  /-- A call of the usage renderer. -/
  | cmdUsage
  /-- A call of the process-exit primitive, with its code. -/
  | exit (code : Int)
deriving DecidableEq, Repr

/-- The collaborator of the root command that the tests replace through the
variable `cmdUsage`, given by what a call of it returns. -/
structure RootCollab where
  cmdUsage : Unit → Option ForeignError

/-- Modelled from the spec: the code that the root command passes to the
process-exit primitive when the usage text cannot be rendered, absent from the
sources.  The specification gives no value, only that the code is not zero. -/
abbrev UsageExitCode := { n : Int // n ≠ 0 }

/-- Modelled from the spec: `Root.Execute` on an invocation with no
arguments, absent from the sources.  The root command prints the usage text;
if printing it fails, the failure is not returned as an error of the command:
the process-exit primitive is called instead, with a non-zero code.  The
primitive is the replaceable variable `exit`; the result given here is what the
caller of `Root.Execute` sees when the primitive returns, as the stand-in of
`TestRootCmd` does (with `os.Exit` the process ends at the event `exit`). -/
def Root.Execute (u : RootCollab) (code : UsageExitCode) :
    List RootEvent × Option ForeignError :=
  match u.cmdUsage () with
  | none => ([.cmdUsage], none)
  | some _ => ([.cmdUsage, .exit code.1], none)

/-- A usage renderer that fails with the foreign error `k`. -/
def RootCollab.failing (k : Nat) : RootCollab := { cmdUsage := fun _ => some ⟨k⟩ }

/-- `Run` with the variable `execCmd` bound to `Root.Execute`, as in
production and after `reset()` in the tests. -/
def Collab.withRoot (c : Collab) (u : RootCollab) (code : UsageExitCode) : Collab :=
  { c with execCmd := fun _ => (Root.Execute u code).2 }

/-- Ghost: the codes of the calls of the process-exit primitive, oldest first. -/
def exitCalls (t : List RootEvent) : List Int :=
  t.filterMap (fun e => match e with | .exit n => some n | _ => none)

end cmd

/-! # Theorems -/

/-! ## The path scans compute what the specification names -/

theorem textAfterLast_concat (c x : Char) (l : GoString) :
    textAfterLast c (l ++ [x]) = if x = c then [] else textAfterLast c l ++ [x] := by
  unfold textAfterLast
  rw [List.rtakeWhile_concat]
  by_cases h : x = c <;> simp [h]

theorem Split_loop_le (path : GoString) (k : Nat) : filepath.Split.loop path k ≤ k := by
  induction k with
  | zero => simp [filepath.Split.loop]
  | succ k ih =>
    unfold filepath.Split.loop
    split
    · exact le_rfl
    · exact Nat.le_succ_of_le ih

theorem Split_loop_append (l r : GoString) (k : Nat) (hk : k ≤ l.length) :
    filepath.Split.loop (l ++ r) k = filepath.Split.loop l k := by
  induction k with
  | zero => simp [filepath.Split.loop]
  | succ k ih =>
    have hlt : k < l.length := hk
    unfold filepath.Split.loop
    rw [List.getD_append l r ' ' k hlt, ih (Nat.le_of_lt hlt)]

theorem Split_snd_eq_finalComponent (path : GoString) :
    (filepath.Split path).2 = finalComponent path := by
  induction path using List.reverseRecOn with
  | nil => simp [filepath.Split, filepath.Split.loop, finalComponent, textAfterLast]
  | append_singleton l c ih =>
    have hc : (l ++ [c]).getD l.length ' ' = c := by simp
    simp only [filepath.Split, finalComponent] at ih ⊢
    rw [textAfterLast_concat, List.length_append, List.length_singleton]
    unfold filepath.Split.loop
    rw [hc]
    by_cases h : c = '/'
    · simp [h, os.IsPathSeparator]
    · have hs : os.IsPathSeparator c = false := by simp [os.IsPathSeparator, h]
      rw [hs, Split_loop_append l [c] l.length le_rfl]
      simp only [Bool.false_eq_true, if_false, h]
      rw [List.drop_append_of_le_length (Split_loop_le l l.length), ih]

theorem Ext_loop_append (l r : GoString) (k : Nat) (hk : k ≤ l.length) :
    filepath.Ext.loop (l ++ r) k =
      if filepath.Ext.loop l k = [] then [] else filepath.Ext.loop l k ++ r := by
  induction k with
  | zero => simp [filepath.Ext.loop]
  | succ k ih =>
    have hlt : k < l.length := hk
    have hne : List.drop k l ≠ [] := by
      intro h
      have := congrArg List.length h
      simp at this
      omega
    unfold filepath.Ext.loop
    rw [List.getD_append l r ' ' k hlt, ih (Nat.le_of_lt hlt)]
    by_cases h1 : os.IsPathSeparator (l.getD k ' ') = true
    · simp only [h1, if_true]
    · by_cases h2 : (l.getD k ' ' == '.') = true
      · simp only [h1, h2, if_true, if_false, Bool.false_eq_true, hne]
        exact List.drop_append_of_le_length (Nat.le_of_lt hlt)
      · simp only [h1, h2, if_false, Bool.false_eq_true]

theorem Ext_eq (path : GoString) :
    filepath.Ext path =
      if '.' ∈ finalComponent path then '.' :: textAfterLast '.' (finalComponent path)
      else [] := by
  induction path using List.reverseRecOn with
  | nil => simp [filepath.Ext, filepath.Ext.loop, finalComponent, textAfterLast]
  | append_singleton l c ih =>
    have hc : (l ++ [c]).getD l.length ' ' = c := by simp
    simp only [filepath.Ext, finalComponent] at ih ⊢
    rw [textAfterLast_concat, List.length_append, List.length_singleton]
    unfold filepath.Ext.loop
    rw [hc]
    by_cases h : c = '/'
    · simp [h, os.IsPathSeparator]
    · have hs : os.IsPathSeparator c = false := by simp [os.IsPathSeparator, h]
      by_cases hd : c = '.'
      · subst hd
        simp [hs, textAfterLast_concat]
      · have hd2 : (c == '.') = false := by simp [hd]
        have hd3 : ¬ '.' = c := fun e => hd e.symm
        rw [hs, hd2, Ext_loop_append l [c] l.length le_rfl, ih]
        simp only [Bool.false_eq_true, if_false, h, textAfterLast_concat, hd,
          List.mem_append, List.mem_singleton, hd3, or_false]
        by_cases hm : '.' ∈ textAfterLast '/' l <;> simp [hm]

theorem not_dot_of_mem_textAfterLast (s : GoString) (x : Char)
    (hx : x ∈ textAfterLast '.' s) : x ≠ '.' := by
  have := List.mem_rtakeWhile_imp hx
  simpa using this

theorem TrimLeft_dot_cons (t : GoString) (ht : ∀ x ∈ t, x ≠ '.') :
    strings.TrimLeft ('.' :: t) ".".toList = t := by
  unfold strings.TrimLeft
  cases t with
  | nil => simp [List.dropWhile]
  | cons a t =>
    have ha : a ≠ '.' := ht a (List.mem_cons_self a t)
    simp [List.dropWhile, ha]

/-- The extension computed by `start` is the extension the specification names. -/
theorem ext_eq_extension (path : GoString) :
    strings.ToLower (strings.TrimLeft (filepath.Ext path) ".".toList) = extension path := by
  rw [Ext_eq]
  unfold extension
  by_cases hm : '.' ∈ finalComponent path
  · simp only [hm, if_true]
    rw [TrimLeft_dot_cons _ (not_dot_of_mem_textAfterLast _)]
  · simp [hm, strings.TrimLeft, strings.ToLower]

theorem finalComponent_eq_nil_iff (path : GoString) :
    finalComponent path = [] ↔ path = [] ∨ path.getLast? = some '/' := by
  induction path using List.reverseRecOn with
  | nil => simp [finalComponent, textAfterLast]
  | append_singleton l c _ =>
    unfold finalComponent
    rw [textAfterLast_concat]
    by_cases h : c = '/' <;> simp [h]

/-! ## Lower-casing -/

theorem toLower_toLower (c : Char) : c.toLower.toLower = c.toLower := by
  have key : ∀ n : Nat, 65 ≤ n → n ≤ 90 →
      ¬ ((Char.ofNat (n + 32)).toNat ≥ 65 ∧ (Char.ofNat (n + 32)).toNat ≤ 90) := by
    intro n h1 h2
    interval_cases n <;> decide
  by_cases h : c.toNat ≥ 65 ∧ c.toNat ≤ 90
  · have h1 : c.toLower = Char.ofNat (c.toNat + 32) := by simp [Char.toLower, h]
    rw [h1]
    simp only [Char.toLower, key c.toNat h.1 h.2, if_false]
  · have h1 : c.toLower = c := by simp only [Char.toLower, h, if_false]
    rw [h1, h1]

theorem ToLower_ToLower (s : GoString) :
    strings.ToLower (strings.ToLower s) = strings.ToLower s := by
  simp [strings.ToLower, toLower_toLower]

theorem ToLower_extension (path : GoString) :
    strings.ToLower (extension path) = extension path := by
  unfold extension
  split
  · exact ToLower_ToLower _
  · rfl

theorem validateExt_extension (path : GoString) :
    writer.validateExt (extension path) = decide (extension path ∈ acceptedExts) := by
  unfold writer.validateExt
  simp only [ToLower_extension, acceptedExts, List.mem_cons, List.mem_singleton,
    List.not_mem_nil, or_false]
  by_cases h : extension path = "json".toList ∨ extension path = "yaml".toList ∨
      extension path = "yml".toList <;> simp [h]

/-! ## The three outcomes of `start` -/

theorem nil_not_mem_acceptedExts : ([] : GoString) ∉ acceptedExts := by decide

theorem finalComponent_ne_nil_of_accepted (path : GoString)
    (he : extension path ∈ acceptedExts) : finalComponent path ≠ [] := by
  intro h
  have : extension path = [] := by simp [extension, h]
  rw [this] at he
  exact nil_not_mem_acceptedExts he

theorem path_ne_nil_of_accepted (path : GoString)
    (he : extension path ∈ acceptedExts) : path ≠ [] := by
  intro h
  exact finalComponent_ne_nil_of_accepted path he
    ((finalComponent_eq_nil_iff path).2 (Or.inl h))

theorem start_of_file_empty (env : Collab) (s : State) (path : GoString)
    (h : finalComponent path = []) :
    writer.start env s path =
      ((s.emit (.startBody path)).emit
          (.loggerErrorf "%s: config path is empty".toList [writer.logTag]),
        errors.Wrap (some .errInvalidFile) writer.logTag) := by
  unfold writer.start
  simp only [Split_snd_eq_finalComponent, h, if_true]

theorem start_of_ext_empty (env : Collab) (s : State) (path : GoString)
    (hf : finalComponent path ≠ []) (he : extension path = []) :
    writer.start env s path =
      ((s.emit (.startBody path)).emit
          (.loggerErrorf "%s: config path has no extension: \x22%s\x22".toList
            [writer.logTag, path]),
        errors.Wrap (some .errInvalidExt) writer.logTag) := by
  unfold writer.start
  simp only [Split_snd_eq_finalComponent, ext_eq_extension, hf, if_false, he, if_true]

theorem start_of_ext_invalid (env : Collab) (s : State) (path : GoString)
    (hf : finalComponent path ≠ []) (h0 : extension path ≠ [])
    (he : extension path ∉ acceptedExts) :
    writer.start env s path =
      ((s.emit (.startBody path)).emit
          (.loggerErrorf "%s: config file invalid ext detected: \x22%s\x22".toList
            [writer.logTag, path]),
        errors.Wrap (some .errInvalidExt) writer.logTag) := by
  unfold writer.start
  simp only [Split_snd_eq_finalComponent, ext_eq_extension, hf, if_false,
    validateExt_extension, h0, he, decide_False, Bool.not_false, if_true]

theorem start_of_ext_rejected (env : Collab) (s : State) (path : GoString)
    (hf : finalComponent path ≠ []) (he : extension path ∉ acceptedExts) :
    ∃ fmt args, writer.start env s path =
      ((s.emit (.startBody path)).emit (.loggerErrorf fmt args),
        errors.Wrap (some .errInvalidExt) writer.logTag) := by
  by_cases h0 : extension path = []
  · exact ⟨_, _, start_of_ext_empty env s path hf h0⟩
  · exact ⟨_, _, start_of_ext_invalid env s path hf h0 he⟩

theorem start_of_accepted (env : Collab) (s : State) (path : GoString)
    (he : extension path ∈ acceptedExts) :
    writer.start env s path =
      ({ once := s.once,
         output := (env.readViperConfigs { s.output with configFile := path }).1,
         trace := s.trace ++ [.startBody path, .setConfigFile path,
           .readViperConfigs { s.output with configFile := path }] },
        errors.Wrap
          ((env.readViperConfigs { s.output with configFile := path }).2.map GoError.foreign)
          writer.logTag) := by
  have hf := finalComponent_ne_nil_of_accepted path he
  have hp := path_ne_nil_of_accepted path he
  have h0 : extension path ≠ [] := fun h => nil_not_mem_acceptedExts (h ▸ he)
  unfold writer.start
  simp only [Split_snd_eq_finalComponent, ext_eq_extension, hf, h0, if_false,
    validateExt_extension]
  simp [he, State.emit, viper.SetConfigFile, hp]

/-! ## Classification of the errors of `start` -/

theorem Wrap_InvalidFile_class (tag : GoString) :
    writer.IsInvalidFileErr (errors.Wrap (some .errInvalidFile) tag) = true ∧
      writer.IsInvalidExtErr (errors.Wrap (some .errInvalidFile) tag) = false := by
  constructor <;> simp [writer.IsInvalidFileErr, writer.IsInvalidExtErr, errors.Wrap,
    errors.Is, errors.is]

theorem Wrap_InvalidExt_class (tag : GoString) :
    writer.IsInvalidExtErr (errors.Wrap (some .errInvalidExt) tag) = true ∧
      writer.IsInvalidFileErr (errors.Wrap (some .errInvalidExt) tag) = false := by
  constructor <;> simp [writer.IsInvalidFileErr, writer.IsInvalidExtErr, errors.Wrap,
    errors.Is, errors.is]

theorem Wrap_foreign_class (k : Option ForeignError) (tag : GoString) :
    writer.IsInvalidFileErr (errors.Wrap (k.map GoError.foreign) tag) = false ∧
      writer.IsInvalidExtErr (errors.Wrap (k.map GoError.foreign) tag) = false := by
  cases k <;> simp [writer.IsInvalidFileErr, writer.IsInvalidExtErr, errors.Wrap,
    errors.Is, errors.is]

/-- C4: for every path whose final filename component is empty (the empty path
and every path that ends in a separator), `start` returns a non-nil error that
`IsInvalidFileErr` accepts and `IsInvalidExtErr` does not, although the
extension that `start` computes for the same path is empty too. -/
theorem start_empty_filename_InvalidFile (env : Collab) (s : State) (path : GoString)
    (h : finalComponent path = []) :
    ∃ e, (writer.start env s path).2 = some e ∧
      writer.IsInvalidFileErr (some e) = true ∧
      writer.IsInvalidExtErr (some e) = false ∧
      strings.ToLower (strings.TrimLeft (filepath.Ext path) ".".toList) = [] := by
  rw [start_of_file_empty env s path h, ext_eq_extension]
  refine ⟨_, rfl, (Wrap_InvalidFile_class writer.logTag).1,
    (Wrap_InvalidFile_class writer.logTag).2, ?_⟩
  simp [extension, h]

theorem start_empty_filename_InvalidFile_witness :
    (finalComponent "".toList = [] ∧
      ∃ e, (writer.start Collab.ok State.fresh "".toList).2 = some e ∧
        writer.IsInvalidFileErr (some e) = true ∧
        writer.IsInvalidExtErr (some e) = false ∧
        strings.ToLower (strings.TrimLeft (filepath.Ext "".toList) ".".toList) = []) ∧
    (finalComponent "dir/".toList = [] ∧
      ∃ e, (writer.start Collab.ok State.fresh "dir/".toList).2 = some e ∧
        writer.IsInvalidFileErr (some e) = true ∧
        writer.IsInvalidExtErr (some e) = false ∧
        strings.ToLower (strings.TrimLeft (filepath.Ext "dir/".toList) ".".toList) = []) ∧
    (finalComponent "a.json/".toList = [] ∧
      ∃ e, (writer.start Collab.ok State.fresh "a.json/".toList).2 = some e ∧
        writer.IsInvalidFileErr (some e) = true ∧
        writer.IsInvalidExtErr (some e) = false ∧
        strings.ToLower (strings.TrimLeft (filepath.Ext "a.json/".toList) ".".toList) = []) :=
  ⟨⟨by decide, start_empty_filename_InvalidFile Collab.ok State.fresh _ (by decide)⟩,
   ⟨by decide, start_empty_filename_InvalidFile Collab.ok State.fresh _ (by decide)⟩,
   ⟨by decide, start_empty_filename_InvalidFile Collab.ok State.fresh _ (by decide)⟩⟩

/-- C5: for every path with a non-empty final filename component whose
extension (the text after the last dot of the final component, lower-cased) is
empty or is not one of json, yaml, yml, `start` returns a non-nil error that
`IsInvalidExtErr` accepts and `IsInvalidFileErr` does not. -/
theorem start_bad_extension_InvalidExt (env : Collab) (s : State) (path : GoString)
    (hf : finalComponent path ≠ [])
    (he : extension path = [] ∨ extension path ∉ acceptedExts) :
    ∃ e, (writer.start env s path).2 = some e ∧
      writer.IsInvalidExtErr (some e) = true ∧
      writer.IsInvalidFileErr (some e) = false := by
  have he2 : extension path ∉ acceptedExts := by
    rcases he with h | h
    · rw [h]; exact nil_not_mem_acceptedExts
    · exact h
  obtain ⟨fmt, args, hst⟩ := start_of_ext_rejected env s path hf he2
  rw [hst]
  exact ⟨_, rfl, (Wrap_InvalidExt_class writer.logTag).1,
    (Wrap_InvalidExt_class writer.logTag).2⟩

theorem start_bad_extension_InvalidExt_witness :
    (finalComponent "config".toList ≠ [] ∧ extension "config".toList = [] ∧
      ∃ e, (writer.start Collab.ok State.fresh "config".toList).2 = some e ∧
        writer.IsInvalidExtErr (some e) = true ∧ writer.IsInvalidFileErr (some e) = false) ∧
    (finalComponent "config.txt".toList ≠ [] ∧ extension "config.txt".toList ∉ acceptedExts ∧
      ∃ e, (writer.start Collab.ok State.fresh "config.txt".toList).2 = some e ∧
        writer.IsInvalidExtErr (some e) = true ∧ writer.IsInvalidFileErr (some e) = false) ∧
    (finalComponent "config.".toList ≠ [] ∧ extension "config.".toList = [] ∧
      ∃ e, (writer.start Collab.ok State.fresh "config.".toList).2 = some e ∧
        writer.IsInvalidExtErr (some e) = true ∧ writer.IsInvalidFileErr (some e) = false) ∧
    (finalComponent "dir.v1/config".toList ≠ [] ∧ extension "dir.v1/config".toList = [] ∧
      ∃ e, (writer.start Collab.ok State.fresh "dir.v1/config".toList).2 = some e ∧
        writer.IsInvalidExtErr (some e) = true ∧ writer.IsInvalidFileErr (some e) = false) :=
  ⟨⟨by decide, by decide,
      start_bad_extension_InvalidExt Collab.ok State.fresh _ (by decide) (Or.inl (by decide))⟩,
   ⟨by decide, by decide,
      start_bad_extension_InvalidExt Collab.ok State.fresh _ (by decide) (Or.inr (by decide))⟩,
   ⟨by decide, by decide,
      start_bad_extension_InvalidExt Collab.ok State.fresh _ (by decide) (Or.inl (by decide))⟩,
   ⟨by decide, by decide,
      start_bad_extension_InvalidExt Collab.ok State.fresh _ (by decide) (Or.inl (by decide))⟩⟩

/-- C6: for every path whose extension is json, yaml or yml in any mix of upper
and lower case (its final filename component is then non-empty), `start`
registers exactly that path as the config file of the store, invokes the
parser exactly once, on that store, after the registration, leaves the store as
the parser left it, and returns nil if and only if the parser returned nil. -/
theorem start_accepted_delegates (env : Collab) (s : State) (path : GoString)
    (he : extension path ∈ acceptedExts) :
    finalComponent path ≠ [] ∧
    (writer.start env s path).1.trace =
      s.trace ++ [.startBody path, .setConfigFile path,
        .readViperConfigs { s.output with configFile := path }] ∧
    (writer.start env s path).1.parserCalls = s.parserCalls + 1 ∧
    (writer.start env s path).1.output =
      (env.readViperConfigs { s.output with configFile := path }).1 ∧
    ((writer.start env s path).2 = none ↔
      (env.readViperConfigs { s.output with configFile := path }).2 = none) := by
  rw [start_of_accepted env s path he]
  refine ⟨finalComponent_ne_nil_of_accepted path he, rfl, ?_, rfl, ?_⟩
  · simp [State.parserCalls, List.countP_append, List.countP_cons]
  · cases (env.readViperConfigs { s.output with configFile := path }).2 <;>
      simp [errors.Wrap]

theorem start_accepted_delegates_witness :
    extension "config.JSON".toList ∈ acceptedExts ∧
    (finalComponent "config.JSON".toList ≠ [] ∧
    (writer.start Collab.ok State.fresh "config.JSON".toList).1.trace =
      State.fresh.trace ++ [.startBody "config.JSON".toList,
        .setConfigFile "config.JSON".toList,
        .readViperConfigs { State.fresh.output with configFile := "config.JSON".toList }] ∧
    (writer.start Collab.ok State.fresh "config.JSON".toList).1.parserCalls =
      State.fresh.parserCalls + 1 ∧
    (writer.start Collab.ok State.fresh "config.JSON".toList).1.output =
      (Collab.ok.readViperConfigs
        { State.fresh.output with configFile := "config.JSON".toList }).1 ∧
    ((writer.start Collab.ok State.fresh "config.JSON".toList).2 = none ↔
      (Collab.ok.readViperConfigs
        { State.fresh.output with configFile := "config.JSON".toList }).2 = none)) :=
  ⟨by decide, start_accepted_delegates Collab.ok State.fresh _ (by decide)⟩

/-- C7: for every path that passes validation and every non-nil error `k` that
the parser returns, `start` returns a non-nil error (the parser's error wrapped
with the tag of `start`) that neither `IsInvalidFileErr` nor `IsInvalidExtErr`
accepts. -/
theorem start_parser_error_unclassified (env : Collab) (s : State) (path : GoString)
    (k : ForeignError) (he : extension path ∈ acceptedExts)
    (hk : (env.readViperConfigs { s.output with configFile := path }).2 = some k) :
    ∃ e, (writer.start env s path).2 = some e ∧
      e = .withStack (.withMessage (.foreign k) writer.logTag) ∧
      writer.IsInvalidFileErr (some e) = false ∧
      writer.IsInvalidExtErr (some e) = false := by
  rw [start_of_accepted env s path he, hk]
  exact ⟨_, rfl, rfl, (Wrap_foreign_class (some k) writer.logTag).1,
    (Wrap_foreign_class (some k) writer.logTag).2⟩

theorem start_parser_error_unclassified_witness :
    extension "config.yml".toList ∈ acceptedExts ∧
    ((Collab.failing 7).readViperConfigs
      { State.fresh.output with configFile := "config.yml".toList }).2 = some ⟨7⟩ ∧
    ∃ e, (writer.start (Collab.failing 7) State.fresh "config.yml".toList).2 = some e ∧
      e = .withStack (.withMessage (.foreign ⟨7⟩) writer.logTag) ∧
      writer.IsInvalidFileErr (some e) = false ∧
      writer.IsInvalidExtErr (some e) = false :=
  ⟨by decide, rfl,
    start_parser_error_unclassified (Collab.failing 7) State.fresh _ ⟨7⟩ (by decide) rfl⟩

/-- C8: for every path that `start` rejects with an error that
`IsInvalidFileErr` or `IsInvalidExtErr` accepts, the store is left as it was,
the parser is not invoked, and nothing is registered: all that `start` did was
to log one error message. -/
theorem start_rejected_skips_parsing (env : Collab) (s : State) (path : GoString)
    (e : GoError) (hr : (writer.start env s path).2 = some e)
    (hc : writer.IsInvalidFileErr (some e) = true ∨ writer.IsInvalidExtErr (some e) = true) :
    (writer.start env s path).1.output = s.output ∧
    (writer.start env s path).1.parserCalls = s.parserCalls ∧
    ∃ fmt args, (writer.start env s path).1.trace =
      s.trace ++ [.startBody path, .loggerErrorf fmt args] := by
  by_cases hf : finalComponent path = []
  · rw [start_of_file_empty env s path hf]
    refine ⟨rfl, ?_, "%s: config path is empty".toList, [writer.logTag], ?_⟩
    · simp [State.parserCalls, State.emit, List.countP_append, List.countP_cons]
    · simp [State.emit]
  · by_cases he : extension path ∈ acceptedExts
    · exfalso
      rw [start_of_accepted env s path he] at hr
      have hcl := Wrap_foreign_class
        (env.readViperConfigs { s.output with configFile := path }).2 writer.logTag
      simp only at hr
      rw [hr] at hcl
      rcases hc with h | h
      · rw [hcl.1] at h; exact Bool.false_ne_true h
      · rw [hcl.2] at h; exact Bool.false_ne_true h
    · obtain ⟨fmt, args, hst⟩ := start_of_ext_rejected env s path hf he
      rw [hst]
      refine ⟨rfl, ?_, fmt, args, ?_⟩
      · simp [State.parserCalls, State.emit, List.countP_append, List.countP_cons]
      · simp [State.emit]

theorem start_rejected_skips_parsing_witness :
    (writer.start Collab.ok State.fresh "config.txt".toList).2 =
      some (.withStack (.withMessage .errInvalidExt writer.logTag)) ∧
    (writer.IsInvalidFileErr (some (.withStack (.withMessage .errInvalidExt writer.logTag)))
        = true ∨
      writer.IsInvalidExtErr (some (.withStack (.withMessage .errInvalidExt writer.logTag)))
        = true) ∧
    ((writer.start Collab.ok State.fresh "config.txt".toList).1.output = State.fresh.output ∧
    (writer.start Collab.ok State.fresh "config.txt".toList).1.parserCalls =
      State.fresh.parserCalls ∧
    ∃ fmt args, (writer.start Collab.ok State.fresh "config.txt".toList).1.trace =
      State.fresh.trace ++ [.startBody "config.txt".toList, .loggerErrorf fmt args]) :=
  ⟨by decide, Or.inr (by decide),
    start_rejected_skips_parsing Collab.ok State.fresh "config.txt".toList
      (.withStack (.withMessage .errInvalidExt writer.logTag)) (by decide)
      (Or.inr (by decide))⟩

/-! ## The one-time guard -/

theorem Start_of_once (env : Collab) (s : State) (p : GoString) (h : s.once = true) :
    writer.Start env s p = (s, none) := by
  simp [writer.Start, sync.Once.Do, h]

theorem Start_of_not_once (env : Collab) (s : State) (p : GoString) (h : s.once = false) :
    writer.Start env s p =
      ({ (writer.start env s p).1 with once := true }, (writer.start env s p).2) := by
  simp [writer.Start, sync.Once.Do, h]

theorem StartAll_of_once (env : Collab) (s : State) (ps : List GoString)
    (h : s.once = true) :
    writer.StartAll env s ps = (s, ps.map (fun _ => none)) := by
  induction ps with
  | nil => rfl
  | cons p ps ih => simp [writer.StartAll, Start_of_once env s p h, ih]

theorem start_ghost (env : Collab) (s : State) (p : GoString) :
    (writer.start env s p).1.bodyPaths = s.bodyPaths ++ [p] ∧
    (writer.start env s p).1.bodyRuns = s.bodyRuns + 1 ∧
    (writer.start env s p).1.parserCalls ≤ s.parserCalls + 1 := by
  by_cases hf : finalComponent p = []
  · rw [start_of_file_empty env s p hf]
    simp [State.bodyPaths, State.bodyRuns, State.parserCalls, State.emit,
      List.countP_append, List.countP_cons, List.filterMap_append]
  · by_cases he : extension p ∈ acceptedExts
    · rw [start_of_accepted env s p he]
      simp [State.bodyPaths, State.bodyRuns, State.parserCalls,
        List.countP_append, List.countP_cons, List.filterMap_append]
    · obtain ⟨fmt, args, hst⟩ := start_of_ext_rejected env s p hf he
      rw [hst]
      simp [State.bodyPaths, State.bodyRuns, State.parserCalls, State.emit,
        List.countP_append, List.countP_cons, List.filterMap_append]

/-- C1 (the claim at its own input): in a fresh process `Start("")` returns
the wrapped `errInvalidFile`, and the later call `Start("config.json")` returns
nil, not the outcome of the first call. -/
theorem Start_later_call_drops_first_error :
    (writer.Start Collab.ok State.fresh "".toList).2 =
      some (.withStack (.withMessage .errInvalidFile writer.logTag)) ∧
    (writer.Start Collab.ok (writer.Start Collab.ok State.fresh "".toList).1
      "config.json".toList).2 = none ∧
    (writer.Start Collab.ok (writer.Start Collab.ok State.fresh "".toList).1
      "config.json".toList).2 ≠ (writer.Start Collab.ok State.fresh "".toList).2 := by
  decide

/-- C1 (amended): if `Start(p1)` is the first call in the process, it returns
the outcome of the load logic for `p1`; and a later call `Start(p2)`, after any
number of calls in between, runs no load logic: it leaves the package state
(the store, the guard, the calls made to the collaborators) exactly as the
first call left it, whatever `p2` is. -/
theorem Start_later_call_loads_nothing (env : Collab) (p1 p2 : GoString)
    (between : List GoString) :
    (writer.Start env State.fresh p1).2 = (writer.start env State.fresh p1).2 ∧
    (writer.Start env (writer.StartAll env State.fresh (p1 :: between)).1 p2).1 =
      (writer.Start env State.fresh p1).1 ∧
    (writer.Start env State.fresh p1).1.bodyPaths = [p1] := by
  have hfirst : (writer.Start env State.fresh p1).1.once = true := by
    rw [Start_of_not_once env State.fresh _ rfl]
  have hall : (writer.StartAll env State.fresh (p1 :: between)).1 =
      (writer.Start env State.fresh p1).1 := by
    simp only [writer.StartAll]
    rw [StartAll_of_once env _ between hfirst]
  refine ⟨?_, ?_, ?_⟩
  · rw [Start_of_not_once env State.fresh _ rfl]
  · rw [hall, Start_of_once env _ p2 hfirst]
  · rw [Start_of_not_once env State.fresh _ rfl]
    exact (start_ghost env State.fresh p1).1

/-- C2 (the code at the inputs of the claim): whatever the two paths are, the
second call of `Start` in a process returns nil. -/
theorem Start_repeated_call_returns_nil (env : Collab) (p1 p2 : GoString) :
    (writer.Start env (writer.Start env State.fresh p1).1 p2).2 = none := by
  rw [Start_of_once]
  rw [Start_of_not_once env State.fresh _ rfl]

/-- C3: for every finite sequence of calls of `Start` from a fresh process, the
body `start` executes at most once, and only for the first call of the
sequence, and the parser is invoked at most once in total. -/
theorem StartAll_body_at_most_once (env : Collab) (paths : List GoString) :
    (writer.StartAll env State.fresh paths).1.bodyRuns ≤ 1 ∧
    (writer.StartAll env State.fresh paths).1.bodyPaths = paths.take 1 ∧
    (writer.StartAll env State.fresh paths).1.parserCalls ≤ 1 := by
  cases paths with
  | nil => simp [writer.StartAll, State.fresh, State.bodyRuns, State.bodyPaths,
      State.parserCalls]
  | cons p ps =>
    have hg := start_ghost env State.fresh p
    simp only [writer.StartAll]
    rw [StartAll_of_once env _ ps (by rw [Start_of_not_once env State.fresh _ rfl]),
      Start_of_not_once env State.fresh _ rfl]
    refine ⟨?_, ?_, ?_⟩
    · exact le_of_eq hg.2.1
    · exact hg.1
    · exact hg.2.2

/-! ## Package cmd -/

/-- C10: for every run in Debug mode (the debug-mode variable set to a
non-empty value) in which the logger initializer and the command executor
succeed, `Run` returns nil and calls the logger initializer exactly once, with
`toFile = false`. -/
theorem Run_debug_inits_logger_once (c : cmd.Collab) (v : GoString) (hv : v ≠ [])
    (hl : c.initLogger false = none) (hx : c.execCmd () = none) :
    cmd.detectMode (some v) = .Debug ∧
    (cmd.Run c (some v)).2 = none ∧
    cmd.initLoggerCalls (cmd.Run c (some v)).1 = [false] := by
  cases v with
  | nil => exact absurd rfl hv
  | cons a v =>
    refine ⟨rfl, ?_, ?_⟩
    · simp [cmd.Run, cmd.detectMode, hl, hx, errors.Wrap]
    · simp only [cmd.Run, cmd.detectMode, hl, Option.map, errors.Wrap, cmd.closeRes]
      cases c.closeLogger () <;> simp [cmd.initLoggerCalls]

theorem Run_debug_inits_logger_once_witness :
    "debug_mode".toList ≠ [] ∧ cmd.Collab.ok.initLogger false = none ∧
    cmd.Collab.ok.execCmd () = none ∧
    (cmd.detectMode (some "debug_mode".toList) = .Debug ∧
    (cmd.Run cmd.Collab.ok (some "debug_mode".toList)).2 = none ∧
    cmd.initLoggerCalls (cmd.Run cmd.Collab.ok (some "debug_mode".toList)).1 = [false]) :=
  ⟨by decide, rfl, rfl,
    Run_debug_inits_logger_once cmd.Collab.ok "debug_mode".toList (by decide) rfl rfl⟩

/-! ## Concurrent callers -/

namespace conc

theorem lookup_set (l : List Caller) (i : Nat) (cl new : Caller) (hi : l[i]? = some cl)
    (j : Nat) (x : Caller) :
    (l.set i new)[j]? = some x ↔ (j = i ∧ x = new) ∨ (j ≠ i ∧ l[j]? = some x) := by
  have hlt : i < l.length := (List.getElem?_eq_some_iff.1 hi).1
  rw [List.getElem?_set]
  by_cases h : i = j
  · subst h
    simp [hlt, eq_comm]
  · have h2 : ¬ j = i := fun e => h e.symm
    simp [h, h2]

theorem map_confPath_set (l : List Caller) (i : Nat) (cl new : Caller)
    (hi : l[i]? = some cl) (hp : new.confPath = cl.confPath) :
    (l.set i new).map (fun c => c.confPath) = l.map (fun c => c.confPath) := by
  apply List.ext_getElem?
  intro j
  rw [List.getElem?_map, List.getElem?_map, List.getElem?_set]
  by_cases h : i = j
  · subst h
    have hlt : i < l.length := (List.getElem?_eq_some_iff.1 hi).1
    simp [hlt, hi, hp]
  · simp [h]

theorem step_cases (env : Collab) (i : Nat) (c c1 : Conc) (h : step env i c = some c1) :
    ∃ cl, c.callers[i]? = some cl ∧
      ((cl.pc = .entry ∧ c.st.once = true ∧
          c1 = { c with callers := c.callers.set i { cl with pc := .returned } }) ∨
       (cl.pc = .entry ∧ c.st.once = false ∧
          c1 = { c with callers := c.callers.set i { cl with pc := .locking } }) ∨
       (cl.pc = .locking ∧ c.locked = false ∧
          c1 = { c with locked := true,
                        callers := c.callers.set i { cl with pc := .inside } }) ∨
       (cl.pc = .inside ∧ c.st.once = true ∧
          c1 = { c with callers := c.callers.set i { cl with pc := .unlocking } }) ∨
       (cl.pc = .inside ∧ c.st.once = false ∧
          c1 = { st := (writer.start env c.st cl.confPath).1, locked := c.locked,
                 callers := c.callers.set i
                   { cl with pc := .storing,
                             err := (writer.start env c.st cl.confPath).2 } }) ∨
       (cl.pc = .storing ∧
          c1 = { st := { c.st with once := true }, locked := c.locked,
                 callers := c.callers.set i { cl with pc := .unlocking } }) ∨
       (cl.pc = .unlocking ∧
          c1 = { c with locked := false,
                        callers := c.callers.set i { cl with pc := .returned } })) := by
  unfold step at h
  cases hi : c.callers[i]? with
  | none => simp [hi] at h
  | some cl =>
    refine ⟨cl, rfl, ?_⟩
    simp only [hi] at h
    cases hpc : cl.pc <;> simp only [stepCaller, hpc] at h
    · cases ho : c.st.once
      · simp only [ho, Bool.false_eq_true, if_false, Option.some.injEq] at h
        exact Or.inr (Or.inl ⟨rfl, rfl, h.symm⟩)
      · simp only [ho, if_true, Option.some.injEq] at h
        exact Or.inl ⟨rfl, rfl, h.symm⟩
    · cases hl : c.locked
      · simp only [hl, Bool.false_eq_true, if_false, Option.some.injEq] at h
        exact Or.inr (Or.inr (Or.inl ⟨rfl, rfl, h.symm⟩))
      · simp [hl] at h
    · cases ho : c.st.once
      · simp only [ho, Bool.false_eq_true, if_false, Option.some.injEq] at h
        exact Or.inr (Or.inr (Or.inr (Or.inr (Or.inl ⟨rfl, rfl, h.symm⟩))))
      · simp only [ho, if_true, Option.some.injEq] at h
        exact Or.inr (Or.inr (Or.inr (Or.inl ⟨rfl, rfl, h.symm⟩)))
    · simp only [Option.some.injEq] at h
      exact Or.inr (Or.inr (Or.inr (Or.inr (Or.inr (Or.inl ⟨rfl, h.symm⟩)))))
    · simp only [Option.some.injEq] at h
      exact Or.inr (Or.inr (Or.inr (Or.inr (Or.inr (Or.inr ⟨rfl, h.symm⟩)))))
    · simp at h

theorem set_back (l : List Caller) (i : Nat) (cl new : Caller) (hi : l[i]? = some cl)
    (j : Nat) (x : Caller) (hx : (l.set i new)[j]? = some x) :
    (j = i ∧ x = new) ∨ (j ≠ i ∧ l[j]? = some x) :=
  (lookup_set l i cl new hi j x).1 hx

theorem set_at (l : List Caller) (i : Nat) (cl new : Caller) (hi : l[i]? = some cl) :
    (l.set i new)[i]? = some new :=
  (lookup_set l i cl new hi i new).2 (Or.inl ⟨rfl, rfl⟩)

theorem set_off (l : List Caller) (i : Nat) (cl new : Caller) (hi : l[i]? = some cl)
    (j : Nat) (x : Caller) (hne : j ≠ i) (hx : l[j]? = some x) :
    (l.set i new)[j]? = some x :=
  (lookup_set l i cl new hi j x).2 (Or.inr ⟨hne, hx⟩)

/-- The mutex part of the invariant survives a step of a caller that neither
takes nor frees the mutex. -/
theorem mutex_same (l : List Caller) (locked : Bool) (i : Nat) (cl new : Caller)
    (hi : l[i]? = some cl) (hh : new.pc.holds = cl.pc.holds)
    (held : ∀ (j : Nat) (x : Caller), l[j]? = some x → x.pc.holds = true → locked = true)
    (excl : ∀ (j k : Nat) (xj xk : Caller), l[j]? = some xj → l[k]? = some xk →
      xj.pc.holds = true → xk.pc.holds = true → j = k)
    (holder : locked = true → ∃ (j : Nat) (x : Caller), l[j]? = some x ∧ x.pc.holds = true) :
    (∀ (j : Nat) (x : Caller), (l.set i new)[j]? = some x → x.pc.holds = true →
      locked = true) ∧
    (∀ (j k : Nat) (xj xk : Caller), (l.set i new)[j]? = some xj →
      (l.set i new)[k]? = some xk → xj.pc.holds = true → xk.pc.holds = true → j = k) ∧
    (locked = true →
      ∃ (j : Nat) (x : Caller), (l.set i new)[j]? = some x ∧ x.pc.holds = true) := by
  have back : ∀ (j : Nat) (x : Caller), (l.set i new)[j]? = some x → x.pc.holds = true →
      ∃ y, l[j]? = some y ∧ y.pc.holds = true := by
    intro j x hx hxh
    rcases set_back l i cl new hi j x hx with ⟨rfl, rfl⟩ | ⟨_, hx1⟩
    · exact ⟨cl, hi, hh ▸ hxh⟩
    · exact ⟨x, hx1, hxh⟩
  refine ⟨?_, ?_, ?_⟩
  · intro j x hx hxh
    obtain ⟨y, hy, hyh⟩ := back j x hx hxh
    exact held j y hy hyh
  · intro j k xj xk hj hk hjh hkh
    obtain ⟨yj, hyj, hyjh⟩ := back j xj hj hjh
    obtain ⟨yk, hyk, hykh⟩ := back k xk hk hkh
    exact excl j k yj yk hyj hyk hyjh hykh
  · intro hl
    obtain ⟨j, x, hx, hxh⟩ := holder hl
    by_cases hji : j = i
    · subst hji
      have hxc : x = cl := by
        rw [hi] at hx
        exact (Option.some.inj hx).symm
      subst hxc
      exact ⟨j, new, set_at l j x new hi, hh ▸ hxh⟩
    · exact ⟨j, x, set_off l i cl new hi j x hji hx, hxh⟩

theorem Inv_init (env : Collab) (paths : List GoString) : Inv env paths (init paths) := by
  have hpc : ∀ (i : Nat) (cl : Caller), (init paths).callers[i]? = some cl →
      cl.pc = Pc.entry := by
    intro i cl h
    have hm : cl ∈ (init paths).callers := List.mem_iff_getElem?.2 ⟨i, h⟩
    simp only [init, List.mem_map] at hm
    obtain ⟨p, _, rfl⟩ := hm
    rfl
  refine ⟨?_, ?_, ?_, ?_, ?_, ?_, ?_⟩
  · simp [init, Function.comp_def]
  · intro i cl h hh
    rw [hpc i cl h] at hh
    exact absurd hh (by decide)
  · intro i j ci cj h _ hh
    rw [hpc i ci h] at hh
    exact absurd hh (by decide)
  · intro hl
    exact absurd hl (by simp [init])
  · intro i cl h hh
    rw [hpc i cl h] at hh
    rcases hh with hh | hh <;> exact absurd hh (by decide)
  · intro _ _
    rfl
  · rintro (ho | ⟨i, cl, h, hs⟩)
    · exact absurd ho (by simp [init, State.fresh])
    · rw [hpc i cl h] at hs
      exact absurd hs (by decide)

theorem Inv_step (env : Collab) (paths : List GoString) (i : Nat) (c c1 : Conc)
    (h : Inv env paths c) (hs : step env i c = some c1) : Inv env paths c1 := by
  obtain ⟨cl, hi, hc⟩ := step_cases env i c c1 hs
  have hmem : cl.confPath ∈ paths := by
    rw [← h.paths_eq]
    exact List.mem_map.2 ⟨cl, List.mem_iff_getElem?.2 ⟨i, hi⟩, rfl⟩
  rcases hc with ⟨hpc, ho, rfl⟩ | ⟨hpc, ho, rfl⟩ | ⟨hpc, hl, rfl⟩ | ⟨hpc, ho, rfl⟩ |
    ⟨hpc, ho, rfl⟩ | ⟨hpc, rfl⟩ | ⟨hpc, rfl⟩
  · -- entry, done is set: return
    have hm := mutex_same c.callers c.locked i cl { cl with pc := .returned } hi
      (by simp [hpc, Pc.holds]) h.held h.excl h.holder
    refine ⟨?_, hm.1, hm.2.1, hm.2.2, ?_, ?_, ?_⟩
    · rw [← h.paths_eq]
      exact map_confPath_set _ _ _ _ hi rfl
    · intro _ _ _ _
      exact ho
    · intro ho2
      exact absurd (ho.symm.trans ho2) (by decide)
    · intro _
      exact h.ran (Or.inl ho)
  · -- entry, done is unset: go to doSlow
    have hm := mutex_same c.callers c.locked i cl { cl with pc := .locking } hi
      (by simp [hpc, Pc.holds]) h.held h.excl h.holder
    refine ⟨?_, hm.1, hm.2.1, hm.2.2, ?_, ?_, ?_⟩
    · rw [← h.paths_eq]
      exact map_confPath_set _ _ _ _ hi rfl
    · intro j x hx hh
      rcases set_back _ i cl _ hi j x hx with ⟨_, rfl⟩ | ⟨_, hx1⟩
      · rcases hh with hh | hh <;> exact absurd hh (by simp)
      · exact h.late j x hx1 hh
    · intro _ hns
      apply h.fresh ho
      intro j x hx
      by_cases hji : j = i
      · subst hji
        rw [hi] at hx
        rw [← Option.some.inj hx, hpc]
        decide
      · exact hns j x (set_off _ i cl _ hi j x hji hx)
    · rintro (ho2 | ⟨j, x, hx, hxs⟩)
      · exact absurd (ho.symm.trans ho2) (by decide)
      · rcases set_back _ i cl _ hi j x hx with ⟨_, rfl⟩ | ⟨_, hx1⟩
        · exact absurd hxs (by simp)
        · exact h.ran (Or.inr ⟨j, x, hx1, hxs⟩)
  · -- Lock
    have nohold : ∀ (j : Nat) (x : Caller), c.callers[j]? = some x → x.pc.holds = true →
        False := by
      intro j x hx hh
      exact absurd ((h.held j x hx hh).symm.trans hl) (by decide)
    have only : ∀ (j : Nat) (x : Caller),
        (c.callers.set i { cl with pc := .inside })[j]? = some x → x.pc.holds = true →
        j = i := by
      intro j x hx hh
      rcases set_back _ i cl _ hi j x hx with ⟨hj, _⟩ | ⟨_, hx1⟩
      · exact hj
      · exact (nohold j x hx1 hh).elim
    refine ⟨?_, ?_, ?_, ?_, ?_, ?_, ?_⟩
    · rw [← h.paths_eq]
      exact map_confPath_set _ _ _ _ hi rfl
    · intro _ _ _ _
      rfl
    · intro j k xj xk hj hk hjh hkh
      rw [only j xj hj hjh, only k xk hk hkh]
    · intro _
      exact ⟨i, _, set_at _ i cl _ hi, rfl⟩
    · intro j x hx hh
      rcases set_back _ i cl _ hi j x hx with ⟨_, rfl⟩ | ⟨_, hx1⟩
      · rcases hh with hh | hh <;> exact absurd hh (by simp)
      · exact h.late j x hx1 hh
    · intro ho hns
      apply h.fresh ho
      intro j x hx
      by_cases hji : j = i
      · subst hji
        rw [hi] at hx
        rw [← Option.some.inj hx, hpc]
        decide
      · exact hns j x (set_off _ i cl _ hi j x hji hx)
    · rintro (ho2 | ⟨j, x, hx, hxs⟩)
      · exact h.ran (Or.inl ho2)
      · rcases set_back _ i cl _ hi j x hx with ⟨_, rfl⟩ | ⟨_, hx1⟩
        · exact absurd hxs (by simp)
        · exact h.ran (Or.inr ⟨j, x, hx1, hxs⟩)
  · -- under the mutex, done is set: skip the body
    have hm := mutex_same c.callers c.locked i cl { cl with pc := .unlocking } hi
      (by simp [hpc, Pc.holds]) h.held h.excl h.holder
    refine ⟨?_, hm.1, hm.2.1, hm.2.2, ?_, ?_, ?_⟩
    · rw [← h.paths_eq]
      exact map_confPath_set _ _ _ _ hi rfl
    · intro _ _ _ _
      exact ho
    · intro ho2
      exact absurd (ho.symm.trans ho2) (by decide)
    · intro _
      exact h.ran (Or.inl ho)
  · -- under the mutex, done is unset: run the body
    have hm := mutex_same c.callers c.locked i cl
      { cl with pc := .storing, err := (writer.start env c.st cl.confPath).2 } hi
      (by simp [hpc, Pc.holds]) h.held h.excl h.holder
    have hfresh : c.st = State.fresh := by
      apply h.fresh ho
      intro j x hx hxs
      have hji : j = i := h.excl j i x cl hx hi (by simp [hxs, Pc.holds])
        (by simp [hpc, Pc.holds])
      subst hji
      rw [hi] at hx
      rw [← Option.some.inj hx, hpc] at hxs
      exact absurd hxs (by decide)
    refine ⟨?_, hm.1, hm.2.1, hm.2.2, ?_, ?_, ?_⟩
    · rw [← h.paths_eq]
      exact map_confPath_set _ _ _ _ hi rfl
    · intro j x hx hh
      rcases set_back _ i cl _ hi j x hx with ⟨_, rfl⟩ | ⟨_, hx1⟩
      · rcases hh with hh | hh <;> exact absurd hh (by simp)
      · exact absurd (ho.symm.trans (h.late j x hx1 hh)) (by decide)
    · intro _ hns
      exact absurd rfl (hns i _ (set_at _ i cl _ hi))
    · intro _
      refine ⟨cl.confPath, hmem, ?_⟩
      show (writer.start env c.st cl.confPath).1.trace = _
      rw [hfresh]
  · -- the deferred Store
    have hm := mutex_same c.callers c.locked i cl { cl with pc := .unlocking } hi
      (by simp [hpc, Pc.holds]) h.held h.excl h.holder
    refine ⟨?_, hm.1, hm.2.1, hm.2.2, ?_, ?_, ?_⟩
    · rw [← h.paths_eq]
      exact map_confPath_set _ _ _ _ hi rfl
    · intro _ _ _ _
      rfl
    · intro ho2
      exact absurd ho2 (by simp)
    · intro _
      exact h.ran (Or.inr ⟨i, cl, hi, hpc⟩)
  · -- the deferred Unlock
    have hdone : c.st.once = true := h.late i cl hi (Or.inl hpc)
    have nohold : ∀ (j : Nat) (x : Caller),
        (c.callers.set i { cl with pc := .returned })[j]? = some x → x.pc.holds = true →
        False := by
      intro j x hx hh
      rcases set_back _ i cl _ hi j x hx with ⟨_, rfl⟩ | ⟨hji, hx1⟩
      · exact absurd hh (by simp [Pc.holds])
      · exact hji (h.excl j i x cl hx1 hi hh (by simp [hpc, Pc.holds]))
    refine ⟨?_, ?_, ?_, ?_, ?_, ?_, ?_⟩
    · rw [← h.paths_eq]
      exact map_confPath_set _ _ _ _ hi rfl
    · intro j x hx hh
      exact (nohold j x hx hh).elim
    · intro j k xj _ hj _ hjh _
      exact (nohold j xj hj hjh).elim
    · intro hl
      exact absurd hl (by simp)
    · intro _ _ _ _
      exact hdone
    · intro ho2
      exact absurd (hdone.symm.trans ho2) (by decide)
    · intro _
      exact h.ran (Or.inl hdone)

theorem Inv_run (env : Collab) (paths : List GoString) (sched : List Nat) :
    ∀ (c c1 : Conc), Inv env paths c → run env sched c = some c1 → Inv env paths c1 := by
  induction sched with
  | nil =>
    intro c c1 h hr
    simp only [run, Option.some.injEq] at hr
    exact hr ▸ h
  | cons i sched ih =>
    intro c c1 h hr
    unfold run at hr
    cases hs : step env i c with
    | none => simp [hs] at hr
    | some c2 =>
      simp only [hs] at hr
      exact ih c2 c1 (Inv_step env paths i c c2 h hs) hr

/-! ### Every schedule is finite and none gets stuck -/

theorem sum_left_set (l : List Caller) (i : Nat) (cl new : Caller) (hi : l[i]? = some cl) :
    ((l.set i new).map (fun x => x.pc.left)).sum + cl.pc.left =
      (l.map (fun x => x.pc.left)).sum + new.pc.left := by
  induction l generalizing i with
  | nil => simp at hi
  | cons a l ih =>
    cases i with
    | zero =>
      simp only [List.getElem?_cons_zero, Option.some.injEq] at hi
      subst hi
      simp only [List.set_cons_zero, List.map_cons, List.sum_cons]
      omega
    | succ i =>
      simp only [List.getElem?_cons_succ] at hi
      have := ih i hi
      simp only [List.set_cons_succ, List.map_cons, List.sum_cons]
      omega

theorem left_set_lt (l : List Caller) (i : Nat) (cl new : Caller) (hi : l[i]? = some cl)
    (hlt : new.pc.left < cl.pc.left) :
    ((l.set i new).map (fun x => x.pc.left)).sum < (l.map (fun x => x.pc.left)).sum := by
  have := sum_left_set l i cl new hi
  omega

theorem step_left (env : Collab) (i : Nat) (c c1 : Conc) (hs : step env i c = some c1) :
    c1.left < c.left := by
  obtain ⟨cl, hi, hc⟩ := step_cases env i c c1 hs
  rcases hc with ⟨hpc, _, rfl⟩ | ⟨hpc, _, rfl⟩ | ⟨hpc, _, rfl⟩ | ⟨hpc, _, rfl⟩ |
    ⟨hpc, _, rfl⟩ | ⟨hpc, rfl⟩ | ⟨hpc, rfl⟩ <;>
  exact left_set_lt c.callers i cl _ hi (by simp [hpc, Pc.left])

theorem run_left (env : Collab) (sched : List Nat) :
    ∀ (c c1 : Conc), run env sched c = some c1 → c1.left + sched.length ≤ c.left := by
  induction sched with
  | nil =>
    intro c c1 hr
    simp only [run, Option.some.injEq] at hr
    simp [hr]
  | cons i sched ih =>
    intro c c1 hr
    unfold run at hr
    cases hs : step env i c with
    | none => simp [hs] at hr
    | some c2 =>
      simp only [hs] at hr
      have h1 := ih c2 c1 hr
      have h2 := step_left env i c c2 hs
      simp only [List.length_cons]
      omega

theorem init_left (paths : List GoString) : (init paths).left = 5 * paths.length := by
  induction paths with
  | nil => rfl
  | cons p ps ih =>
    have hcons : (init (p :: ps)).left = 5 + (init ps).left := rfl
    rw [hcons, ih, List.length_cons]
    omega

theorem step_enabled (env : Collab) (i : Nat) (c : Conc) (cl : Caller)
    (hi : c.callers[i]? = some cl) (hr : cl.pc ≠ Pc.returned)
    (hl : cl.pc = Pc.locking → c.locked = false) : ∃ c1, step env i c = some c1 := by
  unfold step
  simp only [hi]
  cases hpc : cl.pc with
  | entry => cases ho : c.st.once <;> simp [stepCaller, hpc, ho]
  | locking => simp [stepCaller, hpc, hl hpc]
  | inside => cases ho : c.st.once <;> simp [stepCaller, hpc, ho]
  | storing => simp [stepCaller, hpc]
  | unlocking => simp [stepCaller, hpc]
  | returned => exact absurd hpc hr

theorem progress (env : Collab) (paths : List GoString) (c : Conc) (h : Inv env paths c)
    (hn : c.allReturned = false) : ∃ i c1, step env i c = some c1 := by
  cases hl : c.locked with
  | true =>
    obtain ⟨i, cl, hi, hh⟩ := h.holder hl
    refine ⟨i, step_enabled env i c cl hi ?_ ?_⟩
    · intro hpc
      rw [hpc] at hh
      exact absurd hh (by decide)
    · intro hpc
      rw [hpc] at hh
      exact absurd hh (by decide)
  | false =>
    have hex : ∃ cl ∈ c.callers, cl.pc ≠ Pc.returned := by
      by_contra hcon
      have hall : c.allReturned = true := by
        simp only [Conc.allReturned, List.all_eq_true, beq_iff_eq]
        intro x hx
        by_contra hx2
        exact hcon ⟨x, hx, hx2⟩
      rw [hall] at hn
      exact absurd hn (by decide)
    obtain ⟨cl, hmem, hne⟩ := hex
    obtain ⟨i, hi⟩ := List.mem_iff_getElem?.1 hmem
    exact ⟨i, step_enabled env i c cl hi hne (fun _ => hl)⟩

theorem complete (env : Collab) (paths : List GoString) :
    ∀ (n : Nat) (c : Conc), c.left ≤ n → Inv env paths c →
      ∃ sched c1, run env sched c = some c1 ∧ c1.allReturned = true := by
  intro n
  induction n with
  | zero =>
    intro c hle h
    cases hall : c.allReturned with
    | true => exact ⟨[], c, rfl, hall⟩
    | false =>
      obtain ⟨i, c1, hs⟩ := progress env paths c h hall
      have := step_left env i c c1 hs
      omega
  | succ n ih =>
    intro c hle h
    cases hall : c.allReturned with
    | true => exact ⟨[], c, rfl, hall⟩
    | false =>
      obtain ⟨i, c1, hs⟩ := progress env paths c h hall
      have hlt := step_left env i c c1 hs
      obtain ⟨sched, c2, hr, hf⟩ := ih c1 (by omega) (Inv_step env paths i c c1 h hs)
      exact ⟨i :: sched, c2, by simp [run, hs, hr], hf⟩

/-! ### What the callers have done when all have returned -/

theorem start_parserCalls (env : Collab) (s : State) (p : GoString) :
    (writer.start env s p).1.parserCalls =
      s.parserCalls + (if extension p ∈ acceptedExts then 1 else 0) := by
  by_cases hf : finalComponent p = []
  · have he : extension p ∉ acceptedExts :=
      fun he => finalComponent_ne_nil_of_accepted p he hf
    rw [start_of_file_empty env s p hf]
    simp [State.parserCalls, State.emit, List.countP_append, List.countP_cons, he]
  · by_cases he : extension p ∈ acceptedExts
    · rw [start_of_accepted env s p he]
      simp [State.parserCalls, List.countP_append, List.countP_cons, he]
    · obtain ⟨fmt, args, hst⟩ := start_of_ext_rejected env s p hf he
      rw [hst]
      simp [State.parserCalls, State.emit, List.countP_append, List.countP_cons, he]

theorem ghost_of_trace (env : Collab) (st : State) (p : GoString)
    (ht : st.trace = (writer.start env State.fresh p).1.trace) :
    st.bodyRuns = 1 ∧ st.bodyPaths = [p] ∧
      st.parserCalls = (if extension p ∈ acceptedExts then 1 else 0) := by
  have hg := start_ghost env State.fresh p
  have hp := start_parserCalls env State.fresh p
  simp only [State.bodyRuns, State.bodyPaths, State.parserCalls] at hg hp ⊢
  rw [ht]
  refine ⟨hg.2.1, hg.1, ?_⟩
  rw [hp]
  simp [State.fresh]

theorem done_of_allReturned (env : Collab) (paths : List GoString) (c : Conc)
    (h : Inv env paths c) (hne : paths ≠ []) (hall : c.allReturned = true) :
    c.st.once = true := by
  cases hc : c.callers with
  | nil =>
    have := h.paths_eq
    rw [hc] at this
    exact absurd this.symm hne
  | cons cl rest =>
    have hmem : cl ∈ c.callers := by rw [hc]; exact List.mem_cons_self cl rest
    have hpc : cl.pc = Pc.returned := by
      simp only [Conc.allReturned, List.all_eq_true, beq_iff_eq] at hall
      exact hall cl hmem
    have hi : c.callers[0]? = some cl := by rw [hc]; simp
    exact h.late 0 cl hi (Or.inr hpc)

theorem ghost_le_one (env : Collab) (paths : List GoString) (c : Conc)
    (h : Inv env paths c) : c.st.bodyRuns ≤ 1 ∧ c.st.parserCalls ≤ 1 := by
  by_cases hr : c.st.once = true ∨
      ∃ (i : Nat) (cl : Caller), c.callers[i]? = some cl ∧ cl.pc = Pc.storing
  · obtain ⟨p, _, ht⟩ := h.ran hr
    obtain ⟨h1, _, h3⟩ := ghost_of_trace env c.st p ht
    refine ⟨le_of_eq h1, ?_⟩
    rw [h3]
    split <;> omega
  · have hf : c.st = State.fresh := by
      apply h.fresh
      · cases ho : c.st.once with
        | false => rfl
        | true => exact absurd (Or.inl ho) hr
      · intro i cl hi hs
        exact hr (Or.inr ⟨i, cl, hi, hs⟩)
    rw [hf]
    decide

/-- A caller that runs alone does what the sequential `Start` does. -/
theorem run_alone_eq_Start (env : Collab) (s : State) (p : GoString) :
    ∃ sched, run env sched
        { st := s, locked := false, callers := [{ confPath := p, pc := .entry, err := none }] } =
      some { st := (writer.Start env s p).1, locked := false,
             callers := [{ confPath := p, pc := .returned, err := (writer.Start env s p).2 }] } := by
  cases ho : s.once with
  | true =>
    refine ⟨[0], ?_⟩
    simp [run, step, stepCaller, ho, writer.Start, sync.Once.Do]
  | false =>
    refine ⟨[0, 0, 0, 0, 0], ?_⟩
    simp [run, step, stepCaller, ho, writer.Start, sync.Once.Do]

/-- C9 (the claim at two callers): with the callers `Start("")` and
`Start("config.json")` and the schedule in which both pass the first test of
`done` and the first caller takes the mutex, every caller returns, the body has
run once, the parser has not been invoked at all, and the two callers return
different outcomes: the wrapped `errInvalidFile` and nil. -/
theorem Start_concurrent_outcomes_differ :
    ∃ c, run Collab.ok [0, 1, 0, 0, 0, 0, 1, 1, 1]
        (init ["".toList, "config.json".toList]) = some c ∧
      c.allReturned = true ∧ c.st.bodyRuns = 1 ∧ c.st.parserCalls = 0 ∧
      c.callers.map (fun cl => cl.err) =
        [some (.withStack (.withMessage .errInvalidFile writer.logTag)), none] :=
  ⟨_, rfl, by decide, by decide, by decide, by decide⟩

/-- C9 (amended): when the callers of `paths` (at least one) call `Start`
concurrently, under every schedule of their steps: the schedule is finite, no
state is stuck while a caller has not returned (and the callers can all
return), the body has run at most once and the parser has been invoked at most
once; and when all callers have returned, the body has run exactly once, for
one of the callers, and the parser has been invoked exactly once if the path
of that caller passes validation and not at all otherwise. -/
theorem Start_concurrent_once (env : Collab) (paths : List GoString) (hne : paths ≠ []) :
    (∃ sched c, run env sched (init paths) = some c ∧ c.allReturned = true) ∧
    (∀ (sched : List Nat) (c : Conc), run env sched (init paths) = some c →
      sched.length ≤ 5 * paths.length ∧
      c.st.bodyRuns ≤ 1 ∧ c.st.parserCalls ≤ 1 ∧
      (c.allReturned = false → ∃ i c1, step env i c = some c1) ∧
      (c.allReturned = true →
        c.st.bodyRuns = 1 ∧
        ∃ p ∈ paths, c.st.bodyPaths = [p] ∧
          c.st.parserCalls = (if extension p ∈ acceptedExts then 1 else 0))) := by
  refine ⟨complete env paths _ (init paths) le_rfl (Inv_init env paths), ?_⟩
  intro sched c hr
  have hinv : Inv env paths c := Inv_run env paths sched (init paths) c (Inv_init env paths) hr
  have hlen := run_left env sched (init paths) c hr
  rw [init_left] at hlen
  have hle := ghost_le_one env paths c hinv
  refine ⟨by omega, hle.1, hle.2, progress env paths c hinv, ?_⟩
  intro hall
  obtain ⟨p, hp, ht⟩ := hinv.ran (Or.inl (done_of_allReturned env paths c hinv hne hall))
  obtain ⟨h1, h2, h3⟩ := ghost_of_trace env c.st p ht
  exact ⟨h1, p, hp, h2, h3⟩

theorem Start_concurrent_once_witness :
    ["config.json".toList, "".toList] ≠ [] ∧
    ((∃ sched c, run Collab.ok sched (init ["config.json".toList, "".toList]) = some c ∧
        c.allReturned = true) ∧
    (∀ (sched : List Nat) (c : Conc),
      run Collab.ok sched (init ["config.json".toList, "".toList]) = some c →
      sched.length ≤ 5 * ["config.json".toList, "".toList].length ∧
      c.st.bodyRuns ≤ 1 ∧ c.st.parserCalls ≤ 1 ∧
      (c.allReturned = false → ∃ i c1, step Collab.ok i c = some c1) ∧
      (c.allReturned = true →
        c.st.bodyRuns = 1 ∧
        ∃ p ∈ ["config.json".toList, "".toList], c.st.bodyPaths = [p] ∧
          c.st.parserCalls = (if extension p ∈ acceptedExts then 1 else 0)))) :=
  ⟨by decide, Start_concurrent_once Collab.ok _ (by decide)⟩

end conc

/-! ## Package cmd: the other runs -/

theorem detectMode_production (env : Option GoString) (h : env = none ∨ env = some []) :
    cmd.detectMode env = .Production := by
  rcases h with rfl | rfl <;> rfl

theorem Run_production (c : cmd.Collab) (env : Option GoString)
    (h : cmd.detectMode env = .Production) :
    cmd.Run c env =
      (cmd.closeRes c [.execCmd], (c.execCmd ()).map GoError.foreign) := by
  simp [cmd.Run, h]

theorem Run_debug_logger_ok (c : cmd.Collab) (env : Option GoString)
    (h : cmd.detectMode env = .Debug) (hl : c.initLogger false = none) :
    cmd.Run c env =
      (cmd.closeRes c [.initLogger false, .execCmd],
        (c.execCmd ()).map GoError.foreign) := by
  simp [cmd.Run, h, hl, errors.Wrap]

theorem Run_debug_logger_fails (c : cmd.Collab) (env : Option GoString) (k : ForeignError)
    (h : cmd.detectMode env = .Debug) (hl : c.initLogger false = some k) :
    cmd.Run c env =
      ([.initLogger false], some (.withStack (.withMessage (.foreign k) cmd.runTag))) := by
  simp [cmd.Run, h, hl, errors.Wrap]

theorem closeRes_eq (c : cmd.Collab) (t : List cmd.Event) :
    ∃ rest, cmd.closeRes c t = t ++ .closeLogger :: rest ∧
      cmd.initLoggerCalls rest = [] ∧ cmd.execCmdCalls rest = 0 ∧
      cmd.closeLoggerCalls rest = 0 := by
  unfold cmd.closeRes
  cases c.closeLogger () with
  | none => exact ⟨[], by simp, rfl, rfl, rfl⟩
  | some e => exact ⟨[.logCloseFailure e], by simp, rfl, rfl, rfl⟩

/-- If the command executor was called in a run, `Run` returns what it returned. -/
theorem Run_of_executed (c : cmd.Collab) (env : Option GoString)
    (hx : cmd.Event.execCmd ∈ (cmd.Run c env).1) :
    (cmd.Run c env).2 = (c.execCmd ()).map GoError.foreign := by
  cases hm : cmd.detectMode env with
  | Production => rw [Run_production c env hm]
  | Debug =>
    cases hl : c.initLogger false with
    | none => rw [Run_debug_logger_ok c env hm hl]
    | some k =>
      rw [Run_debug_logger_fails c env k hm hl] at hx
      simp at hx

/-- C11: for every run in Production mode (the debug-mode variable unset or
empty), `Run` calls the logger initializer zero times and returns what the
command executor returned, hence nil when the executor succeeds. -/
theorem Run_production_skips_logger (c : cmd.Collab) (env : Option GoString)
    (h : env = none ∨ env = some []) :
    cmd.detectMode env = .Production ∧
    cmd.initLoggerCalls (cmd.Run c env).1 = [] ∧
    (cmd.Run c env).2 = (c.execCmd ()).map GoError.foreign ∧
    (c.execCmd () = none → (cmd.Run c env).2 = none) := by
  have hm := detectMode_production env h
  rw [Run_production c env hm]
  obtain ⟨rest, hr, hi, _, _⟩ := closeRes_eq c [.execCmd]
  refine ⟨hm, ?_, rfl, ?_⟩
  · rw [hr]
    simp only [cmd.initLoggerCalls, List.filterMap_append, List.filterMap_cons,
      List.filterMap_nil, List.nil_append] at hi ⊢
    exact hi
  · intro hx
    rw [hx]
    rfl

theorem Run_production_skips_logger_witness :
    ((none : Option GoString) = none ∨ (none : Option GoString) = some []) ∧
    (cmd.detectMode none = .Production ∧
    cmd.initLoggerCalls (cmd.Run cmd.Collab.ok none).1 = [] ∧
    (cmd.Run cmd.Collab.ok none).2 = (cmd.Collab.ok.execCmd ()).map GoError.foreign ∧
    (cmd.Collab.ok.execCmd () = none → (cmd.Run cmd.Collab.ok none).2 = none)) ∧
    (((some []) : Option GoString) = none ∨ ((some []) : Option GoString) = some []) ∧
    (cmd.detectMode (some []) = .Production ∧
    cmd.initLoggerCalls (cmd.Run cmd.Collab.ok (some [])).1 = [] ∧
    (cmd.Run cmd.Collab.ok (some [])).2 = (cmd.Collab.ok.execCmd ()).map GoError.foreign ∧
    (cmd.Collab.ok.execCmd () = none → (cmd.Run cmd.Collab.ok (some [])).2 = none)) :=
  ⟨Or.inl rfl, Run_production_skips_logger cmd.Collab.ok none (Or.inl rfl),
   Or.inr rfl, Run_production_skips_logger cmd.Collab.ok (some []) (Or.inr rfl)⟩

theorem detectMode_debug (v : GoString) (hv : v ≠ []) :
    cmd.detectMode (some v) = .Debug := by
  cases v with
  | nil => exact absurd rfl hv
  | cons a v => rfl

/-- C12: for every non-nil error `k` that the logger initializer returns in
Debug mode, `Run` returns a non-nil error (one that wraps `k`) and the command
executor is never invoked. -/
theorem Run_logger_failure_aborts (c : cmd.Collab) (v : GoString) (k : ForeignError)
    (hv : v ≠ []) (hl : c.initLogger false = some k) :
    ∃ e, (cmd.Run c (some v)).2 = some e ∧
      errors.Is (some e) (some (.foreign k)) = true ∧
      cmd.execCmdCalls (cmd.Run c (some v)).1 = 0 := by
  rw [Run_debug_logger_fails c (some v) k (detectMode_debug v hv) hl]
  refine ⟨_, rfl, ?_, ?_⟩
  · simp [errors.Is, errors.is]
  · simp [cmd.execCmdCalls]

theorem Run_logger_failure_aborts_witness :
    "debug_mode".toList ≠ [] ∧ (cmd.Collab.loggerFailing 3).initLogger false = some ⟨3⟩ ∧
    ∃ e, (cmd.Run (cmd.Collab.loggerFailing 3) (some "debug_mode".toList)).2 = some e ∧
      errors.Is (some e) (some (.foreign ⟨3⟩)) = true ∧
      cmd.execCmdCalls (cmd.Run (cmd.Collab.loggerFailing 3) (some "debug_mode".toList)).1 = 0 :=
  ⟨by decide, rfl,
    Run_logger_failure_aborts (cmd.Collab.loggerFailing 3) "debug_mode".toList ⟨3⟩
      (by decide) rfl⟩

/-- C13: for every non-nil error `k` that the command executor returns in a
run, `Run` returns a non-nil error, which is `k` itself, so that `errors.Is`
recognises `k` in it. -/
theorem Run_returns_executor_error (c : cmd.Collab) (env : Option GoString)
    (k : ForeignError) (hx : c.execCmd () = some k)
    (hcalled : cmd.Event.execCmd ∈ (cmd.Run c env).1) :
    (cmd.Run c env).2 = some (.foreign k) ∧
    errors.Is (cmd.Run c env).2 (some (.foreign k)) = true := by
  have hr : (cmd.Run c env).2 = some (.foreign k) := by
    rw [Run_of_executed c env hcalled, hx]
    rfl
  refine ⟨hr, ?_⟩
  rw [hr]
  simp [errors.Is, errors.is]

theorem Run_returns_executor_error_witness :
    ((cmd.Collab.execFailing 5).execCmd () = some ⟨5⟩ ∧
      cmd.Event.execCmd ∈ (cmd.Run (cmd.Collab.execFailing 5) none).1 ∧
      (cmd.Run (cmd.Collab.execFailing 5) none).2 = some (.foreign ⟨5⟩) ∧
      errors.Is (cmd.Run (cmd.Collab.execFailing 5) none).2 (some (.foreign ⟨5⟩)) = true) ∧
    ((cmd.Collab.execFailing 5).execCmd () = some ⟨5⟩ ∧
      cmd.Event.execCmd ∈
        (cmd.Run (cmd.Collab.execFailing 5) (some "debug_mode".toList)).1 ∧
      (cmd.Run (cmd.Collab.execFailing 5) (some "debug_mode".toList)).2 =
        some (.foreign ⟨5⟩) ∧
      errors.Is (cmd.Run (cmd.Collab.execFailing 5) (some "debug_mode".toList)).2
        (some (.foreign ⟨5⟩)) = true) :=
  ⟨⟨rfl, by decide,
      Run_returns_executor_error (cmd.Collab.execFailing 5) none ⟨5⟩ rfl (by decide)⟩,
   ⟨rfl, by decide,
      Run_returns_executor_error (cmd.Collab.execFailing 5) (some "debug_mode".toList) ⟨5⟩
        rfl (by decide)⟩⟩

/-- C14: if rendering the usage text fails when the root command is executed
with no arguments, the process-exit primitive is invoked exactly once, with a
non-zero code, `Root.Execute` returns nil to its caller, and so does a `Run`
that executed the root command. -/
theorem Root_usage_failure_exits_once (u : cmd.RootCollab) (code : cmd.UsageExitCode)
    (c : cmd.Collab) (env : Option GoString) (k : ForeignError)
    (hu : u.cmdUsage () = some k)
    (hcalled : cmd.Event.execCmd ∈ (cmd.Run (c.withRoot u code) env).1) :
    (cmd.Root.Execute u code).1 = [.cmdUsage, .exit code.1] ∧
    cmd.exitCalls (cmd.Root.Execute u code).1 = [code.1] ∧
    code.1 ≠ 0 ∧
    (cmd.Root.Execute u code).2 = none ∧
    (cmd.Run (c.withRoot u code) env).2 = none := by
  have he : cmd.Root.Execute u code = ([.cmdUsage, .exit code.1], none) := by
    simp [cmd.Root.Execute, hu]
  refine ⟨by rw [he], by rw [he]; rfl, code.2, by rw [he], ?_⟩
  rw [Run_of_executed (c.withRoot u code) env hcalled]
  simp [cmd.Collab.withRoot, he]

theorem Root_usage_failure_exits_once_witness :
    (cmd.RootCollab.failing 9).cmdUsage () = some ⟨9⟩ ∧
    cmd.Event.execCmd ∈
      (cmd.Run (cmd.Collab.ok.withRoot (cmd.RootCollab.failing 9) ⟨1, by decide⟩) none).1 ∧
    ((cmd.Root.Execute (cmd.RootCollab.failing 9) ⟨1, by decide⟩).1 =
      [.cmdUsage, .exit 1] ∧
    cmd.exitCalls (cmd.Root.Execute (cmd.RootCollab.failing 9) ⟨1, by decide⟩).1 = [1] ∧
    (1 : Int) ≠ 0 ∧
    (cmd.Root.Execute (cmd.RootCollab.failing 9) ⟨1, by decide⟩).2 = none ∧
    (cmd.Run (cmd.Collab.ok.withRoot (cmd.RootCollab.failing 9) ⟨1, by decide⟩) none).2 =
      none) :=
  ⟨rfl, by decide,
    Root_usage_failure_exits_once (cmd.RootCollab.failing 9) ⟨1, by decide⟩ cmd.Collab.ok
      none ⟨9⟩ rfl (by decide)⟩

/-- C15: whether the logger closer returns nil or returns a non-nil error,
the call of `closeRes` ends by returning to its caller with no error: it does
not end in a panic and it does not hand the closer's error on. -/
theorem closeRes_consumes_errors (c : cmd.Collab) (k : Option ForeignError) :
    cmd.closeRes.ending { c with closeLogger := fun _ => k } = .returned none ∧
    (∀ v, cmd.closeRes.ending { c with closeLogger := fun _ => k } ≠ .panicked v) ∧
    (∀ e, cmd.closeRes.ending { c with closeLogger := fun _ => k } ≠ .returned (some e)) := by
  have h : cmd.closeRes.ending { c with closeLogger := fun _ => k } = .returned none := by
    cases k <;> rfl
  refine ⟨h, ?_, ?_⟩
  · intro v
    rw [h]
    exact fun hv => cmd.Ending.noConfusion hv
  · intro e
    rw [h]
    intro he
    exact absurd (cmd.Ending.returned.inj he) (by simp)

/-! ## A failed first call of `Start` -/

/-- C16: if the first call of `Start` in the process fails, then every later
call `Start(p)`, after any number of calls in between and whatever `p` is,
returns nil, invokes no parser, runs no load body, and leaves the store, with
its config file, and all the package state exactly as the first call left
them. -/
theorem Start_after_failed_first_call (env : Collab) (p1 p : GoString)
    (between : List GoString) (e : GoError)
    (hfail : (writer.Start env State.fresh p1).2 = some e) :
    (writer.Start env (writer.StartAll env State.fresh (p1 :: between)).1 p).2 = none ∧
    (writer.Start env (writer.StartAll env State.fresh (p1 :: between)).1 p).1.output =
      (writer.Start env State.fresh p1).1.output ∧
    (writer.Start env (writer.StartAll env State.fresh (p1 :: between)).1 p).1.parserCalls =
      (writer.Start env State.fresh p1).1.parserCalls ∧
    (writer.Start env (writer.StartAll env State.fresh (p1 :: between)).1 p).1.bodyPaths =
      [p1] ∧
    (writer.Start env (writer.StartAll env State.fresh (p1 :: between)).1 p).1.trace =
      (writer.Start env State.fresh p1).1.trace ∧
    (writer.Start env (writer.StartAll env State.fresh (p1 :: between)).1 p).2 ≠
      (writer.Start env State.fresh p1).2 := by
  have hfirst : (writer.Start env State.fresh p1).1.once = true := by
    rw [Start_of_not_once env State.fresh _ rfl]
  have hall : (writer.StartAll env State.fresh (p1 :: between)).1 =
      (writer.Start env State.fresh p1).1 := by
    simp only [writer.StartAll]
    rw [StartAll_of_once env _ between hfirst]
  rw [hall, Start_of_once env _ p hfirst]
  refine ⟨rfl, rfl, rfl, ?_, rfl, ?_⟩
  · rw [Start_of_not_once env State.fresh _ rfl]
    exact (start_ghost env State.fresh p1).1
  · rw [hfail]
    simp

theorem Start_after_failed_first_call_witness :
    ((writer.Start Collab.ok State.fresh "".toList).2 =
        some (.withStack (.withMessage .errInvalidFile writer.logTag)) ∧
      ((writer.Start Collab.ok
          (writer.StartAll Collab.ok State.fresh
            ("".toList :: [])).1
          "config.json".toList).2 = none ∧
        (writer.Start Collab.ok
          (writer.StartAll Collab.ok State.fresh
            ("".toList :: [])).1
          "config.json".toList).1.output =
          (writer.Start Collab.ok State.fresh "".toList).1.output ∧
        (writer.Start Collab.ok
          (writer.StartAll Collab.ok State.fresh
            ("".toList :: [])).1
          "config.json".toList).1.parserCalls =
          (writer.Start Collab.ok State.fresh "".toList).1.parserCalls ∧
        (writer.Start Collab.ok
          (writer.StartAll Collab.ok State.fresh
            ("".toList :: [])).1
          "config.json".toList).1.bodyPaths = ["".toList] ∧
        (writer.Start Collab.ok
          (writer.StartAll Collab.ok State.fresh
            ("".toList :: [])).1
          "config.json".toList).1.trace =
          (writer.Start Collab.ok State.fresh "".toList).1.trace ∧
        (writer.Start Collab.ok
          (writer.StartAll Collab.ok State.fresh
            ("".toList :: [])).1
          "config.json".toList).2 ≠
          (writer.Start Collab.ok State.fresh "".toList).2)) ∧
    ((writer.Start (Collab.failing 7) State.fresh "config.json".toList).2 =
        some (.withStack (.withMessage (.foreign ⟨7⟩) writer.logTag)) ∧
      ((writer.Start (Collab.failing 7)
          (writer.StartAll (Collab.failing 7) State.fresh
            ("config.json".toList :: ["other.yaml".toList])).1
          "config.yml".toList).2 = none ∧
        (writer.Start (Collab.failing 7)
          (writer.StartAll (Collab.failing 7) State.fresh
            ("config.json".toList :: ["other.yaml".toList])).1
          "config.yml".toList).1.output =
          (writer.Start (Collab.failing 7) State.fresh "config.json".toList).1.output ∧
        (writer.Start (Collab.failing 7)
          (writer.StartAll (Collab.failing 7) State.fresh
            ("config.json".toList :: ["other.yaml".toList])).1
          "config.yml".toList).1.parserCalls =
          (writer.Start (Collab.failing 7) State.fresh "config.json".toList).1.parserCalls ∧
        (writer.Start (Collab.failing 7)
          (writer.StartAll (Collab.failing 7) State.fresh
            ("config.json".toList :: ["other.yaml".toList])).1
          "config.yml".toList).1.bodyPaths = ["config.json".toList] ∧
        (writer.Start (Collab.failing 7)
          (writer.StartAll (Collab.failing 7) State.fresh
            ("config.json".toList :: ["other.yaml".toList])).1
          "config.yml".toList).1.trace =
          (writer.Start (Collab.failing 7) State.fresh "config.json".toList).1.trace ∧
        (writer.Start (Collab.failing 7)
          (writer.StartAll (Collab.failing 7) State.fresh
            ("config.json".toList :: ["other.yaml".toList])).1
          "config.yml".toList).2 ≠
          (writer.Start (Collab.failing 7) State.fresh "config.json".toList).2)) :=
  ⟨⟨by decide,
      Start_after_failed_first_call Collab.ok "".toList "config.json".toList []
        (.withStack (.withMessage .errInvalidFile writer.logTag)) (by decide)⟩,
   ⟨by decide,
      Start_after_failed_first_call (Collab.failing 7) "config.json".toList
        "config.yml".toList ["other.yaml".toList]
        (.withStack (.withMessage (.foreign ⟨7⟩) writer.logTag)) (by decide)⟩⟩

end Crcgen
